import Mathlib

/-!
Shallow embedding of `recollection/core.py` (the `Memento` snapshot/history
engine, its `_ItemToRecord` bindings and the `_SyncGroupPropogation`
lock-step guard), together with proofs settling the frozen claims about it.

Modelling conventions:
* Machine state of one `Memento` instance is an explicit record (`MState`);
  the process-wide pieces (`Memento._SYNC_GROUPS`,
  `_SyncGroupPropogation._ACTIVELY_PROCESSING`) live in a `World` record
  together with a map from tracker ids to tracker states.
* Python values stored in snapshots are drawn from an abstract type `V`;
  `copy.deepcopy` on such pure values is the identity, so the
  `copy_value` flag is carried but behaviourally inert here.
* The observed target is held by `weakref.ref`: we model the referent by an
  `alive` flag (dead reference dereferences to `None`), a `truthy` flag
  (the Python truth value of the live object, since the source tests
  `if not self._target()`), and its attribute map `attrs`.
* The `stored` / `restored` signal emissions are recorded in an event
  trace, which is how "performs a store / restore" is counted.
* Fallible steps return the mutated world together with
  `Option PyErr` (the raised exception, `none` on success); Python
  mutations performed before a raise persist, so state is always returned.
* Recursive propagation (`store` on peers calling `store`, `restore` on
  peers calling `restore`) is given explicit fuel; theorems hold for every
  sufficiently large fuel value.
-/

/-- Attribute map of a Python object: attribute name to value. -/
abbrev Attrs (V : Type) := String → V

/-- A getter/setter capability as passed to `Memento.register`: either a
plain attribute name (a string), a zero-argument callable producing a value
(modelled as reading the target's attributes), or a one-argument callable
consuming a value (modelled as transforming the target's attributes). -/
inductive Cap (V : Type) where
  | attr (name : String)
  | getterFn (f : Attrs V → V)
  | setterFn (f : V → Attrs V → Attrs V)

/-- `_ItemToRecord`: label, getter, setter and the copy flag. -/
structure Item (V : Type) where
  label : String
  getter : Cap V
  setter : Cap V
  copyValue : Bool

/-- A snapshot: the Python dict mapping labels to recorded values,
as an insertion-ordered association list. -/
abbrev Snap (V : Type) := List (String × V)

/-- Exceptions raised by the embedded code. -/
inductive PyErr where
  | storageError
  | registrationError
  | typeError
  | indexError
  | keyError
  | attributeError
  | serialiseError
  | recursionLimit
deriving DecidableEq

/-- Python dict assignment `d[k] = v`: replaces the value of an existing
key in place, otherwise appends the new pair at the end. -/
def dictInsert {V : Type} (d : Snap V) (k : String) (v : V) : Snap V :=
  if d.any (fun p => decide (p.1 = k)) then
    d.map (fun p => if p.1 = k then (k, v) else p)
  else
    d ++ [(k, v)]

/-- Python dict lookup `d[k]`, `none` meaning a `KeyError`. -/
def snapLookup {V : Type} (d : Snap V) (k : String) : Option V :=
  (d.find? (fun p => decide (p.1 = k))).map (fun p => p.2)

/-- State of one `Memento` instance (`core.py` lines 25-54), plus the
modelled weak-referenced target. -/
@[ext]
structure MState (V : Type) where
  /-- `self._defer` -/
  deferFlag : Bool
  /-- whether the weakly referenced target is still alive -/
  alive : Bool
  /-- the Python truth value of the live target object -/
  truthy : Bool
  /-- the target's attributes -/
  attrs : Attrs V
  /-- `self._states`, most recent first -/
  states : List (Snap V)
  /-- `self._max_states` (0 disables the cap) -/
  maxStates : Nat
  /-- `self._items_to_record` -/
  items : List (Item V)
  /-- `self._always_serialise` -/
  alwaysSerialise : Bool
  /-- whether `self._serialiser` is registered -/
  hasSerialiser : Bool

/-- Signal emissions of interest: `self.stored.emit()` and
`self.restored.emit()`, tagged with the emitting tracker's id. -/
inductive Event where
  | stored (i : Nat)
  | restored (i : Nat)
deriving DecidableEq

/-- The process-wide state: all tracker instances, `Memento._SYNC_GROUPS`,
`_SyncGroupPropogation._ACTIVELY_PROCESSING`, and the signal trace. -/
@[ext]
structure World (V : Type) where
  trackers : Nat → MState V
  syncGroups : List (List Nat)
  active : List Nat
  trace : List Event

def World.tracker {V : Type} (w : World V) (i : Nat) : MState V :=
  w.trackers i

def World.setTracker {V : Type} (w : World V) (i : Nat) (m : MState V) :
    World V :=
  { w with trackers := fun j => if j = i then m else w.trackers j }

def World.updTracker {V : Type} (w : World V) (i : Nat)
    (f : MState V → MState V) : World V :=
  w.setTracker i (f (w.tracker i))

def World.emit {V : Type} (w : World V) (e : Event) : World V :=
  { w with trace := w.trace ++ [e] }

/-- `_ItemToRecord.get` (`core.py` lines 665-681): call a callable getter,
otherwise `getattr(self._target(), self._getter)`; a dead weak reference
dereferences to `None`, on which `getattr` raises; calling a one-argument
callable with no arguments raises a `TypeError`.  `self._copy` is the
identity on our pure values. -/
def itemGet {V : Type} (m : MState V) (it : Item V) : Except PyErr V :=
  match it.getter with
  | .attr name => if m.alive then .ok (m.attrs name) else .error .attributeError
  | .getterFn f => .ok (f m.attrs)
  | .setterFn _ => .error .typeError

/-- `_ItemToRecord.set` (`core.py` lines 684-698): call a callable setter
with the value, otherwise `setattr(self._target(), self.label, value)`.
Note the source assigns to the attribute named by `self.label`, not by the
setter capability. -/
def itemSet {V : Type} (m : MState V) (it : Item V) (v : V) :
    Except PyErr (MState V) :=
  match it.setter with
  | .setterFn f => .ok { m with attrs := f v m.attrs }
  | .getterFn _ => .error .typeError
  | .attr _ =>
      if m.alive then
        .ok { m with attrs := fun x => if x = it.label then v else m.attrs x }
      else .error .attributeError

/-- `Memento.store` lines 199-206: `snapshot = dict()` then
`snapshot[item.label] = item.get()` over the registered items. -/
def takeSnapshot {V : Type} (m : MState V) :
    List (Item V) → Snap V → Except PyErr (Snap V)
  | [], acc => .ok acc
  | it :: rest, acc =>
    match itemGet m it with
    | .error e => .error e
    | .ok v => takeSnapshot m rest (dictInsert acc it.label v)

/-- `Memento.restore` lines 252-253: `item.set(snapshot[item.label])` over
the registered items; a missing label raises `KeyError`, and mutations
made before a raise persist. -/
def setAll {V : Type} (snap : Snap V) :
    List (Item V) → MState V → MState V × Option PyErr
  | [], m => (m, none)
  | it :: rest, m =>
    match snapLookup snap it.label with
    | none => (m, some .keyError)
    | some v =>
      match itemSet m it v with
      | .error e => (m, some e)
      | .ok m2 => setAll snap rest m2

/-- `Memento.store` lines 210-215: insert the snapshot at position 0; if
`self._max_states` is nonzero and the length now exceeds it, pop the last
(oldest) entry. -/
def pushState {V : Type} (m : MState V) (snap : Snap V) : MState V :=
  let m1 := { m with states := snap :: m.states }
  if m1.maxStates ≠ 0 ∧ m1.states.length > m1.maxStates then
    { m1 with states := m1.states.dropLast }
  else m1

/-- `Memento.sync_group` lines 419-425: the first group of
`_SYNC_GROUPS` containing the tracker, else its own singleton group. -/
def syncGroup (sgs : List (List Nat)) (i : Nat) : List Nat :=
  match sgs.find? (fun g => decide (i ∈ g)) with
  | some g => g
  | none => [i]

/-- `Memento.group` lines 389-401: append `other` to the first group
containing `self` (no-op if already present), else append a fresh
`[self, other]` group. -/
def groupCall : List (List Nat) → Nat → Nat → List (List Nat)
  | [], s, o => [[s, o]]
  | g :: rest, s, o =>
    if s ∈ g then (if o ∈ g then g else g ++ [o]) :: rest
    else g :: groupCall rest s o

/-- `_SyncGroupPropogation.__exit__` lines 613-619: pop each member of the
added group (from the end) and `remove` its first occurrence from
`_ACTIVELY_PROCESSING`. -/
def removeGroup (ap : List Nat) (g : List Nat) : List Nat :=
  g.reverse.foldl (fun acc x => acc.erase x) ap

/-- Sequential propagation loop over peers, aborting on the first raised
exception (which then propagates up through the caller). -/
def runSeq {V : Type} (f : World V → Nat → World V × Option PyErr) :
    List Nat → World V → World V × Option PyErr
  | [], w => (w, none)
  | p :: rest, w =>
    match f w p with
    | (w2, none) => runSeq f rest w2
    | (w2, some e) => (w2, some e)

/-- The non-propagating part of `Memento.store` (`core.py` lines 190-225):
the deferred-window early return, the weak-reference truthiness check, the
snapshot build, the capped insert, the serialisation step and the
`stored` emission.  The third component tells the caller whether to go on
to propagation (`False` on the deferred early return). -/
def storeSelf {V : Type} (w : World V) (i : Nat) (serialise : Bool) :
    World V × Option PyErr × Bool :=
  let m := w.tracker i
  -- line 190: `if self._defer: return`
  if m.deferFlag then (w, none, false)
  -- line 196: `if not self._target():` — Python truthiness of the
  -- dereferenced weak reference, not a pure liveness test
  else if !(m.alive && m.truthy) then (w, some .storageError, false)
  else
    match takeSnapshot m m.items [] with
    | .error e => (w, some e, false)
    | .ok snapshot =>
      let w1 := w.setTracker i (pushState m snapshot)
      -- line 218: `if serialise or self._always_serialise: self.serialise()`
      -- (raises when no serialiser is registered; a registered serialiser
      -- only performs external persistence, outside this state)
      if (serialise || m.alwaysSerialise) && !m.hasSerialiser then
        (w1, some .serialiseError, false)
      else
        (w1.emit (.stored i), none, true)

/-- The `with _SyncGroupPropogation(self)` block shared by `store` and
`restore` (`core.py` lines 229-231 and 265-267, with the guard logic of
lines 588-619): when the tracker is already actively processing the
`__enter__` contributes no peers and nothing happens; otherwise the whole
sync group is appended to the actively-processing list, the given call is
propagated over every other member in order, and `__exit__` removes the
added members again (also on the exception path). -/
def propagate {V : Type} (recur : World V → Nat → World V × Option PyErr)
    (w : World V) (i : Nat) : World V × Option PyErr :=
  if i ∈ w.active then (w, none)
  else
    let g := syncGroup w.syncGroups i
    let w2 := { w with active := w.active ++ g }
    match runSeq recur (g.filter (fun p => p != i)) w2 with
    | (w3, e) => ({ w3 with active := removeGroup w3.active g }, e)

/-- `Memento.store` (`core.py` lines 180-231), with fuel bounding the
propagation recursion depth: the non-propagating part (`storeSelf`),
then `store(serialise=serialise)` propagated to the non-reentrant sync
group peers. -/
def store {V : Type} : Nat → World V → Nat → Bool → World V × Option PyErr
  | 0, w, _, _ => (w, some .recursionLimit)
  | fuel + 1, w, i, serialise =>
    match storeSelf w i serialise with
    | (w1, some e, _) => (w1, some e)
    | (w1, none, false) => (w1, none)
    | (w1, none, true) =>
      propagate (fun wa p => store fuel wa p serialise) w1 i

/-- The exit of the `defer` context manager (`core.py` lines 285-286) as
resumed after a normal completion of the body: `self._defer = False`
followed by `self.store(serialise=serialise)`. -/
def deferExitStore {V : Type} (fuel : Nat) (w : World V) (i : Nat)
    (serialise : Bool) : World V × Option PyErr :=
  let w1 := w.updTracker i (fun m => { m with deferFlag := false })
  store fuel w1 i serialise

/-- The body of `Memento.restore` inside the deferred window
(`core.py` lines 247-253): the `defer` entry sets `self._defer = True`,
the snapshot is looked up in `self._states` (an out-of-range index raises
`IndexError`, escaping the window with the flag still set, since the
generator-based context manager never resumes), and every registered item
is written back. -/
def restoreSelf {V : Type} (w : World V) (i : Nat) (index : Nat) :
    World V × Option PyErr :=
  let w0 := w.updTracker i (fun m => { m with deferFlag := true })
  let m := w0.tracker i
  match m.states.get? index with
  | none => (w0, some .indexError)
  | some snapshot =>
    match setAll snapshot m.items m with
    | (m1, some e) => (w0.setTracker i m1, some e)
    | (m1, none) => (w0.setTracker i m1, none)

/-- `Memento.restore` (`core.py` lines 234-270): the deferred-window body,
the sync-group propagation of `restore(index)` to every non-reentrant
peer, the deferred-window exit (which stores the just-restored state), and
the final `restored` emission.  Any exception raised inside the window
escapes before `self._defer` is reset. -/
def restore {V : Type} : Nat → World V → Nat → Nat → World V × Option PyErr
  | 0, w, _, _ => (w, some .recursionLimit)
  | fuel + 1, w, i, index =>
    match restoreSelf w i index with
    | (w1, some e) => (w1, some e)
    | (w1, none) =>
      match propagate (fun wa p => restore fuel wa p index) w1 i with
      | (wp, some e) => (wp, some e)
      | (wp, none) =>
        match deferExitStore fuel wp i false with
        | (w5, some e) => (w5, some e)
        | (w5, none) => (w5.emit (.restored i), none)

/-- The `defer` context manager around a block of attribute writes
(`core.py` lines 273-286): set the flag, run the body, clear the flag and
store. -/
def deferWindow {V : Type} (fuel : Nat) (w : World V) (i : Nat)
    (body : World V → World V) (serialise : Bool) : World V × Option PyErr :=
  let w1 := w.updTracker i (fun m => { m with deferFlag := true })
  deferExitStore fuel (body w1) i serialise

/-- The `omit` context manager (`core.py` lines 289-299): set the flag,
run the body, clear the flag; no store on exit. -/
def omitWindow {V : Type} (w : World V) (i : Nat)
    (body : World V → World V) : World V :=
  let w1 := w.updTracker i (fun m => { m with deferFlag := true })
  (body w1).updTracker i (fun m => { m with deferFlag := false })

/-- `Memento.register` (`core.py` lines 57-135) for a single accessor:
`setter = setter or getter`, `label = label or getter` (a callable label
fails `_ItemToRecord`'s string check with a `TypeError`), the duplicate
check against the existing labels raising `RegistrationError`, then the
append of the new `_ItemToRecord`. -/
def resolveLabel {V : Type} (getter : Cap V) (labelArg : Option String) :
    Option String :=
  match labelArg with
  | some l => some l
  | none => match getter with
    | .attr s => some s
    | _ => none

/-- The duplicate check and append of `Memento.register` (see above). -/
def registerItem {V : Type} (m : MState V) (getter : Cap V)
    (setterArg : Option (Cap V)) (labelArg : Option String)
    (copyValue : Bool) : MState V × Option PyErr :=
  let setter := setterArg.getD getter
  match resolveLabel getter labelArg with
  | some l =>
    if l ∈ m.items.map (fun it => it.label) then (m, some .registrationError)
    else ({ m with items := m.items ++ [⟨l, getter, setter, copyValue⟩] }, none)
  | none => (m, some .typeError)

/-- `Memento.count` (`core.py` lines 366-371). -/
def countStates {V : Type} (m : MState V) : Nat :=
  m.states.length

/-- `Memento.labels` (`core.py` lines 359-363). -/
def labelsOf {V : Type} (m : MState V) : List String :=
  m.items.map (fun it => it.label)

/-- A plain attribute registration `register('foo')`: getter, setter and
label all the attribute name. -/
def attrBinding {V : Type} (l : String) : Item V :=
  ⟨l, .attr l, .attr l, true⟩

/-- Wellformedness of one binding for the happy paths: the getter is not a
one-argument callable and the setter is not a zero-argument callable
(either would raise a `TypeError` when used). -/
def itemOKb {V : Type} (it : Item V) : Bool :=
  (match it.getter with | .setterFn _ => false | _ => true) &&
  (match it.setter with | .getterFn _ => false | _ => true)

/-- Readiness of a tracker for a plain (non-deferred, live-target,
non-serialising) successful `store`. -/
def ReadyS {V : Type} (m : MState V) : Prop :=
  m.deferFlag = false ∧ m.alive = true ∧ m.truthy = true ∧
  m.alwaysSerialise = false ∧ ∀ it ∈ m.items, itemOKb it = true

/-- Readiness of a tracker for a successful `restore(k)`: live target,
wellformed bindings, index in range and every binding's label present in
the snapshot at index `k`. -/
def ReadyR {V : Type} (m : MState V) (k : Nat) : Prop :=
  m.alive = true ∧ m.truthy = true ∧ m.alwaysSerialise = false ∧
  (∀ it ∈ m.items, itemOKb it = true) ∧
  k < m.states.length ∧
  (∀ it ∈ m.items, (snapLookup (m.states.getD k []) it.label).isSome = true)

instance {V : Type} (m : MState V) : Decidable (ReadyS m) := by
  unfold ReadyS
  infer_instance

instance {V : Type} (m : MState V) (k : Nat) : Decidable (ReadyR m k) := by
  unfold ReadyR
  infer_instance

/-- The history-cap invariant of one tracker: the cap is disabled, or the
history length is within it. -/
def capOK {V : Type} (m : MState V) : Prop :=
  m.maxStates = 0 ∨ m.states.length ≤ m.maxStates

/-- Two tracker states that differ at most in the target's attributes. -/
def attrsOnly {V : Type} (m' m : MState V) : Prop :=
  m'.deferFlag = m.deferFlag ∧ m'.alive = m.alive ∧ m'.truthy = m.truthy ∧
  m'.states = m.states ∧ m'.maxStates = m.maxStates ∧ m'.items = m.items ∧
  m'.alwaysSerialise = m.alwaysSerialise ∧ m'.hasSerialiser = m.hasSerialiser

/-- A tracker that is a member of no sync group. -/
def Ungrouped {V : Type} (w : World V) (i : Nat) : Prop :=
  ∀ g ∈ w.syncGroups, i ∉ g

/-- The snapshot a `store` takes of plain attribute bindings over `labels`
when the target's attributes are `a`. -/
def snapOf {V : Type} (labels : List String) (a : Attrs V) : Snap V :=
  labels.foldl (fun d l => dictInsert d l (a l)) []

/-- The snapshot `store` takes of a tracker (total helper; equals the
`takeSnapshot` result on every successful path). -/
def snapshotOf {V : Type} (m : MState V) : Snap V :=
  (takeSnapshot m m.items []).toOption.getD []

/-- The cumulative effect on the world of the propagated `store` calls on
a list of already-actively-processing peers, in call order: each peer
pushes its own snapshot and emits its `stored` signal. -/
def bulkStore {V : Type} : List Nat → World V → World V
  | [], w => w
  | p :: ps, w =>
      bulkStore ps
        ((w.setTracker p (pushState (w.tracker p) (snapshotOf (w.tracker p)))).emit
          (.stored p))

/-- The test-harness driver for a sequence of stores: before each `store`
the caller sets the target's attributes (cf. `test_can_restore_historically`
in `tests/test_memento.py`). -/
def runStores {V : Type} (fuel : Nat) (i : Nat) :
    List (Attrs V) → World V → World V
  | [], w => w
  | t :: ts, w =>
      runStores fuel i ts
        (store fuel (w.updTracker i (fun m => { m with attrs := t })) i false).1

/-- The sync-group table is a partition: the group sets are pairwise
disjoint, so no tracker belongs to two distinct sets. -/
def PairwiseDisjoint (sgs : List (List Nat)) : Prop :=
  sgs.Pairwise (fun g1 g2 => ∀ x, x ∈ g1 → x ∉ g2)

instance (sgs : List (List Nat)) : Decidable (PairwiseDisjoint sgs) := by
  unfold PairwiseDisjoint
  infer_instance

/-- Precondition on one `group(a, b)` call under which the partition
property survives: `b` is in no existing set, or `b` is already in the
first set containing `a`. -/
def SafeGroupArg (sgs : List (List Nat)) (a b : Nat) : Prop :=
  (∀ g ∈ sgs, b ∉ g) ∨
  (∃ g, sgs.find? (fun g0 => decide (a ∈ g0)) = some g ∧ b ∈ g)

/-- Setup for the single-ungrouped-tracker claims: tracker `i` is in no
sync group, nothing is actively processing, its target is live and truthy,
no serialiser interferes, the history is unbounded and its bindings are
plain attribute registrations over `labels`. -/
def C1Setup {V : Type} (w : World V) (i : Nat) (labels : List String) : Prop :=
  Ungrouped w i ∧ w.active = [] ∧
  (w.tracker i).deferFlag = false ∧ (w.tracker i).alive = true ∧
  (w.tracker i).truthy = true ∧ (w.tracker i).alwaysSerialise = false ∧
  (w.tracker i).maxStates = 0 ∧
  (w.tracker i).items = labels.map (fun l => attrBinding l)

/-- A concrete tracker over `Int` values bound to the single integer
attribute `foo`. -/
def fooTracker (st : List (Snap Int)) : MState Int :=
  { deferFlag := false, alive := true, truthy := true,
    attrs := fun _ => (0 : Int), states := st, maxStates := 0,
    items := [attrBinding "foo"], alwaysSerialise := false,
    hasSerialiser := false }

/-- Two `foo` trackers (ids 0 and 1) in one lock-step group, each with one
stored snapshot; nothing is actively processing. -/
def pairWorld : World Int :=
  { trackers := fun _ => fooTracker [[("foo", 0)]],
    syncGroups := [[0, 1]], active := [], trace := [] }

/-- A single ungrouped `foo` tracker with `max_states = 5`. -/
def cappedWorld : World Int :=
  { trackers := fun _ => { fooTracker [] with maxStates := 5 },
    syncGroups := [], active := [], trace := [] }

/-- The concrete spec scenario: 100 stores with `foo` set to `0..99`
before each, on a `max_states = 5` tracker. -/
def scenarioWorld : World Int :=
  runStores 2 0 ((List.range 100).map (fun n _ => (n : Int))) cappedWorld

/-- A single ungrouped `foo` tracker with empty history. -/
def plainWorld : World Int :=
  { trackers := fun _ => fooTracker [], syncGroups := [], active := [],
    trace := [] }

/-- A tracker whose target is alive but has Python truth value `False`
(for example an object whose `__bool__` returns `False`). -/
def falsyWorld : World Int :=
  { trackers := fun _ => { fooTracker [] with truthy := false },
    syncGroups := [], active := [], trace := [] }

/-- A binding whose label `"L"`, read capability `"g"` and write
capability `"s"` are three distinct attribute names. -/
def splitItem : Item Int := ⟨"L", .attr "g", .attr "s", true⟩

@[simp]
theorem tracker_setTracker_self {V : Type} (w : World V) (i : Nat)
    (m : MState V) : (w.setTracker i m).tracker i = m := by
  simp [World.setTracker, World.tracker]

theorem tracker_setTracker_ne {V : Type} (w : World V) {i j : Nat}
    (m : MState V) (h : j ≠ i) : (w.setTracker i m).tracker j = w.tracker j := by
  simp [World.setTracker, World.tracker, h]

@[simp]
theorem syncGroups_setTracker {V : Type} (w : World V) (i : Nat)
    (m : MState V) : (w.setTracker i m).syncGroups = w.syncGroups := rfl

@[simp]
theorem active_setTracker {V : Type} (w : World V) (i : Nat)
    (m : MState V) : (w.setTracker i m).active = w.active := rfl

@[simp]
theorem trace_setTracker {V : Type} (w : World V) (i : Nat)
    (m : MState V) : (w.setTracker i m).trace = w.trace := rfl

@[simp]
theorem tracker_emit {V : Type} (w : World V) (e : Event) (j : Nat) :
    (w.emit e).tracker j = w.tracker j := rfl

@[simp]
theorem syncGroups_emit {V : Type} (w : World V) (e : Event) :
    (w.emit e).syncGroups = w.syncGroups := rfl

@[simp]
theorem active_emit {V : Type} (w : World V) (e : Event) :
    (w.emit e).active = w.active := rfl

@[simp]
theorem trace_emit {V : Type} (w : World V) (e : Event) :
    (w.emit e).trace = w.trace ++ [e] := rfl

theorem setTracker_setTracker_self {V : Type} (w : World V) (i : Nat)
    (m1 m2 : MState V) :
    (w.setTracker i m1).setTracker i m2 = w.setTracker i m2 := by
  simp only [World.setTracker]
  congr 1
  funext j
  by_cases h : j = i <;> simp [h]

@[simp]
theorem deferFlag_pushState {V : Type} (m : MState V) (s : Snap V) :
    (pushState m s).deferFlag = m.deferFlag := by
  simp only [pushState]
  split <;> rfl

@[simp]
theorem alive_pushState {V : Type} (m : MState V) (s : Snap V) :
    (pushState m s).alive = m.alive := by
  simp only [pushState]
  split <;> rfl

@[simp]
theorem truthy_pushState {V : Type} (m : MState V) (s : Snap V) :
    (pushState m s).truthy = m.truthy := by
  simp only [pushState]
  split <;> rfl

@[simp]
theorem attrs_pushState {V : Type} (m : MState V) (s : Snap V) :
    (pushState m s).attrs = m.attrs := by
  simp only [pushState]
  split <;> rfl

@[simp]
theorem maxStates_pushState {V : Type} (m : MState V) (s : Snap V) :
    (pushState m s).maxStates = m.maxStates := by
  simp only [pushState]
  split <;> rfl

@[simp]
theorem items_pushState {V : Type} (m : MState V) (s : Snap V) :
    (pushState m s).items = m.items := by
  simp only [pushState]
  split <;> rfl

@[simp]
theorem alwaysSerialise_pushState {V : Type} (m : MState V) (s : Snap V) :
    (pushState m s).alwaysSerialise = m.alwaysSerialise := by
  simp only [pushState]
  split <;> rfl

@[simp]
theorem hasSerialiser_pushState {V : Type} (m : MState V) (s : Snap V) :
    (pushState m s).hasSerialiser = m.hasSerialiser := by
  simp only [pushState]
  split <;> rfl

theorem ReadyS_pushState {V : Type} {m : MState V} (s : Snap V)
    (h : ReadyS m) : ReadyS (pushState m s) := by
  obtain ⟨h1, h2, h3, h4, h5⟩ := h
  refine ⟨?_, ?_, ?_, ?_, ?_⟩ <;> simp [h1, h2, h3, h4]
  intro it hit
  exact h5 it (by simpa using hit)

/-- A store on a tracker whose history length is strictly below a nonzero
cap (or whose cap is disabled) grows the history by exactly one entry. -/
theorem pushState_length_of_room {V : Type} {m : MState V} (s : Snap V)
    (h : m.maxStates = 0 ∨ m.states.length < m.maxStates) :
    (pushState m s).states = s :: m.states := by
  simp only [pushState]
  rcases h with h | h
  · rw [if_neg]
    simp [h]
  · rw [if_neg]
    rintro ⟨-, hlen⟩
    simp only [List.length_cons] at hlen
    omega

theorem pushState_head {V : Type} (m : MState V) (s : Snap V) :
    (pushState m s).states.head? = some s := by
  simp only [pushState]
  split
  · rename_i h
    match hs : m.states with
    | [] =>
      obtain ⟨h1, h2⟩ := h
      simp [hs] at h2
      omega
    | x :: xs => simp [hs, List.dropLast]
  · rfl

theorem capOK_pushState {V : Type} {m : MState V} (s : Snap V)
    (h : capOK m) : capOK (pushState m s) := by
  rcases h with h | h
  · exact Or.inl (by simpa using h)
  · by_cases h0 : m.maxStates = 0
    · exact Or.inl (by simpa using h0)
    · right
      simp only [pushState]
      split
      · rename_i hcond
        simpa using Nat.le_trans (by simp [List.length_dropLast]) h
      · rename_i hcond
        simp only [maxStates_pushState]
        simp only [not_and, not_lt, List.length_cons, ne_eq] at hcond ⊢
        have := hcond h0
        omega

/-- An overflowing store (history already at a nonzero cap) evicts exactly
one entry, the oldest, leaving the length at the cap. -/
theorem pushState_overflow {V : Type} {m : MState V} (s : Snap V)
    (h0 : m.maxStates ≠ 0) (hlen : m.states.length = m.maxStates) :
    (pushState m s).states = s :: m.states.dropLast ∧
    (pushState m s).states.length = m.maxStates := by
  have hpos : 0 < m.maxStates := Nat.pos_of_ne_zero h0
  have hcond : m.maxStates ≠ 0 ∧ (s :: m.states).length > m.maxStates := by
    constructor
    · exact h0
    · simp [hlen]
  constructor
  · simp only [pushState, if_pos hcond]
    match hs : m.states with
    | [] =>
      rw [hs] at hlen
      simp at hlen
      omega
    | x :: xs => simp [List.dropLast]
  · simp only [pushState, if_pos hcond]
    simp [List.length_dropLast, hlen]

theorem find?_replaceKey_self {V : Type} (k : String) (v : V) :
    ∀ d : Snap V,
      (d.map (fun p => if p.1 = k then (k, v) else p)).find?
          (fun p => decide (p.1 = k)) =
        if d.any (fun p => decide (p.1 = k)) then some (k, v) else none
  | [] => by simp
  | q :: d => by
    by_cases hq : q.1 = k
    · simp [hq]
    · have hmap : (if q.1 = k then (k, v) else q) = q := if_neg hq
      simp only [List.map_cons, hmap]
      rw [List.find?_cons_of_neg _ (by simp [hq]), find?_replaceKey_self k v d]
      have hor : (decide (q.1 = k) || d.any fun p => decide (p.1 = k)) =
          (d.any fun p => decide (p.1 = k)) := by simp [hq]
      simp only [List.any_cons, hor]

theorem find?_replaceKey_ne {V : Type} {k k2 : String} (v : V)
    (h : k ≠ k2) :
    ∀ d : Snap V,
      (d.map (fun p => if p.1 = k then (k, v) else p)).find?
          (fun p => decide (p.1 = k2)) =
        d.find? (fun p => decide (p.1 = k2))
  | [] => by simp
  | q :: d => by
    by_cases hq : q.1 = k
    · have hq2 : ¬ q.1 = k2 := by
        rw [hq]
        exact h
      have hmap : (if q.1 = k then (k, v) else q) = (k, v) := if_pos hq
      simp only [List.map_cons, hmap]
      rw [List.find?_cons_of_neg _ (by simp [h]),
        List.find?_cons_of_neg _ (by simp [hq2])]
      exact find?_replaceKey_ne v h d
    · have hmap : (if q.1 = k then (k, v) else q) = q := if_neg hq
      simp only [List.map_cons, hmap]
      by_cases hq2 : q.1 = k2
      · rw [List.find?_cons_of_pos _ (by simp [hq2]),
          List.find?_cons_of_pos _ (by simp [hq2])]
      · rw [List.find?_cons_of_neg _ (by simp [hq2]),
          List.find?_cons_of_neg _ (by simp [hq2])]
        exact find?_replaceKey_ne v h d

theorem snapLookup_dictInsert_self {V : Type} (d : Snap V) (k : String)
    (v : V) : snapLookup (dictInsert d k v) k = some v := by
  simp only [dictInsert]
  split
  · rename_i hany
    simp only [snapLookup]
    rw [find?_replaceKey_self, if_pos hany]
    rfl
  · rename_i hany
    simp only [snapLookup]
    have hnone : d.find? (fun p => decide (p.1 = k)) = none := by
      apply List.find?_eq_none.2
      intro p hp
      simp only [List.any_eq_true, not_exists, not_and] at hany
      simpa using hany p hp
    rw [List.find?_append, hnone, Option.none_or]
    simp

theorem snapLookup_dictInsert_ne {V : Type} (d : Snap V) {k k2 : String}
    (v : V) (h : k ≠ k2) :
    snapLookup (dictInsert d k v) k2 = snapLookup d k2 := by
  simp only [dictInsert]
  split
  · simp only [snapLookup]
    rw [find?_replaceKey_ne v h]
  · simp only [snapLookup]
    have hsingle : List.find? (fun p => decide (p.1 = k2)) [(k, v)] = none := by
      simp [h]
    rw [List.find?_append, hsingle, Option.or_none]

/-- Every value inserted by `snapOf` for a label `l` is `a l`, so the
lookup of a bound label in the snapshot gives the attribute's value. -/
theorem snapLookup_snapOf {V : Type} (labels : List String) (a : Attrs V)
    {l : String} (hl : l ∈ labels) :
    snapLookup (snapOf labels a) l = some (a l) := by
  suffices h : ∀ acc : Snap V,
      (l ∈ labels ∨ snapLookup acc l = some (a l)) →
      snapLookup (labels.foldl (fun d x => dictInsert d x (a x)) acc) l =
        some (a l) by
    exact h [] (Or.inl hl)
  clear hl
  induction labels with
  | nil =>
    intro acc h
    rcases h with h | h
    · simp at h
    · simpa using h
  | cons x rest ih =>
    intro acc h
    simp only [List.foldl_cons]
    apply ih
    by_cases hx : l = x
    · right
      rw [hx]
      exact snapLookup_dictInsert_self ..
    · rcases h with h | h
      · rcases List.mem_cons.1 h with h | h
        · exact absurd h hx
        · exact Or.inl h
      · right
        rw [snapLookup_dictInsert_ne _ _ (fun hc => hx hc.symm)]
        exact h

theorem takeSnapshot_ok {V : Type} (m : MState V)
    (halive : m.alive = true) :
    ∀ (items : List (Item V)) (acc : Snap V),
      (∀ it ∈ items, itemOKb it = true) →
      ∃ s, takeSnapshot m items acc = .ok s
  | [], acc, _ => ⟨acc, rfl⟩
  | it :: rest, acc, h => by
    have hit : itemOKb it = true := h it (List.mem_cons_self ..)
    have hget : ∃ v, itemGet m it = .ok v := by
      simp only [itemOKb, Bool.and_eq_true] at hit
      match hg : it.getter with
      | .attr name => exact ⟨m.attrs name, by simp [itemGet, hg, halive]⟩
      | .getterFn f => exact ⟨f m.attrs, by simp [itemGet, hg]⟩
      | .setterFn f => simp [hg] at hit
    obtain ⟨v, hv⟩ := hget
    obtain ⟨s, hs⟩ := takeSnapshot_ok m halive rest
      (dictInsert acc it.label v) (fun x hx => h x (List.mem_cons_of_mem _ hx))
    exact ⟨s, by simp [takeSnapshot, hv, hs]⟩

/-- On plain attribute bindings the snapshot is exactly `snapOf`. -/
theorem takeSnapshot_attrBindings {V : Type} (m : MState V)
    (halive : m.alive = true) (labels : List String) :
    ∀ acc : Snap V,
      takeSnapshot m (labels.map (fun l => attrBinding l)) acc =
        .ok (labels.foldl (fun d l => dictInsert d l (m.attrs l)) acc) := by
  induction labels with
  | nil => intro acc; rfl
  | cons x rest ih =>
    intro acc
    simp only [List.map_cons, takeSnapshot, List.foldl_cons]
    rw [show itemGet m (attrBinding x) = .ok (m.attrs x) by
      simp [itemGet, attrBinding, halive]]
    exact ih _

theorem snapshotOf_attrBindings {V : Type} (m : MState V)
    (halive : m.alive = true) (labels : List String)
    (hitems : m.items = labels.map (fun l => attrBinding l)) :
    snapshotOf m = snapOf labels m.attrs := by
  simp [snapshotOf, hitems, takeSnapshot_attrBindings m halive labels [],
    snapOf, Except.toOption]

theorem attrsOnly_refl {V : Type} (m : MState V) : attrsOnly m m :=
  ⟨rfl, rfl, rfl, rfl, rfl, rfl, rfl, rfl⟩

theorem attrsOnly_trans {V : Type} {m3 m2 m1 : MState V}
    (h32 : attrsOnly m3 m2) (h21 : attrsOnly m2 m1) : attrsOnly m3 m1 := by
  obtain ⟨a1, a2, a3, a4, a5, a6, a7, a8⟩ := h32
  obtain ⟨b1, b2, b3, b4, b5, b6, b7, b8⟩ := h21
  exact ⟨a1.trans b1, a2.trans b2, a3.trans b3, a4.trans b4, a5.trans b5,
    a6.trans b6, a7.trans b7, a8.trans b8⟩

theorem itemSet_attrsOnly {V : Type} {m m2 : MState V} {it : Item V} {v : V}
    (h : itemSet m it v = .ok m2) : attrsOnly m2 m := by
  unfold itemSet at h
  match hs : it.setter with
  | .setterFn f =>
    rw [hs] at h
    cases h
    exact ⟨rfl, rfl, rfl, rfl, rfl, rfl, rfl, rfl⟩
  | .getterFn f =>
    rw [hs] at h
    cases h
  | .attr n =>
    rw [hs] at h
    by_cases ha : m.alive = true
    · rw [if_pos ha] at h
      cases h
      exact ⟨rfl, rfl, rfl, rfl, rfl, rfl, rfl, rfl⟩
    · rw [if_neg ha] at h
      cases h

theorem setAll_attrsOnly {V : Type} (snap : Snap V) :
    ∀ (items : List (Item V)) (m : MState V),
      attrsOnly ((setAll snap items m).1) m
  | [], m => attrsOnly_refl m
  | it :: rest, m => by
    simp only [setAll]
    split
    · exact attrsOnly_refl m
    · split
      · exact attrsOnly_refl m
      · next m2 hset =>
        exact attrsOnly_trans (setAll_attrsOnly snap rest m2)
          (itemSet_attrsOnly hset)

theorem setAll_cons_attr {V : Type} (snap : Snap V) (l : String)
    (items : List (Item V)) (m : MState V) (v : V)
    (halive : m.alive = true) (hv : snapLookup snap l = some v) :
    setAll snap (attrBinding l :: items) m =
      setAll snap items
        { m with attrs := fun x => if x = l then v else m.attrs x } := by
  simp only [setAll, attrBinding, hv, itemSet, halive, if_true]

/-- `setAll` on plain attribute bindings whose labels are all present in
the snapshot succeeds and writes exactly the snapshot values to the bound
attributes, leaving every other attribute unchanged. -/
theorem setAll_attrBindings {V : Type} (snap : Snap V) :
    ∀ (labels : List String) (m : MState V), m.alive = true →
      (∀ l ∈ labels, (snapLookup snap l).isSome = true) →
      ∃ m1, setAll snap (labels.map (fun l => attrBinding l)) m = (m1, none) ∧
        attrsOnly m1 m ∧
        (∀ l v, l ∈ labels → snapLookup snap l = some v → m1.attrs l = v) ∧
        (∀ x, x ∉ labels → m1.attrs x = m.attrs x)
  | [], m, _, _ => ⟨m, rfl, attrsOnly_refl m, by simp, fun x _ => rfl⟩
  | l :: rest, m, halive, hcov => by
    obtain ⟨v, hv⟩ := Option.isSome_iff_exists.1
      (hcov l (List.mem_cons_self ..))
    have halive2 : ({ m with
        attrs := fun x => if x = l then v else m.attrs x } : MState V).alive =
          true := halive
    obtain ⟨m1, hrun, honly, hvals, hothers⟩ :=
      setAll_attrBindings snap rest
        { m with attrs := fun x => if x = l then v else m.attrs x }
        halive2 (fun l2 h2 => hcov l2 (List.mem_cons_of_mem _ h2))
    refine ⟨m1, ?_, ?_, ?_, ?_⟩
    · rw [List.map_cons, setAll_cons_attr snap l _ m v halive hv, hrun]
    · exact attrsOnly_trans honly ⟨rfl, rfl, rfl, rfl, rfl, rfl, rfl, rfl⟩
    · intro l2 v2 hmem hlook
      by_cases hr : l2 ∈ rest
      · exact hvals l2 v2 hr hlook
      · have hl2 : l2 = l := by
          rcases List.mem_cons.1 hmem with h | h
          · exact h
          · exact absurd h hr
        rw [hothers l2 hr, hl2]
        have hvv : v = v2 := by
          rw [hl2, hv] at hlook
          exact Option.some_injective _ hlook
        simp [hvv]
    · intro x hx
      have hxr : x ∉ rest := fun hc => hx (List.mem_cons_of_mem _ hc)
      have hxl : ¬ x = l := fun hc => hx (by rw [hc]; exact List.mem_cons_self ..)
      rw [hothers x hxr]
      simp [hxl]

theorem mem_syncGroup (sgs : List (List Nat)) (i : Nat) :
    i ∈ syncGroup sgs i := by
  unfold syncGroup
  match hf : sgs.find? (fun g => decide (i ∈ g)) with
  | some g =>
    have := List.find?_some hf
    simpa using this
  | none => simp

theorem syncGroup_ungrouped {sgs : List (List Nat)} {i : Nat}
    (h : ∀ g ∈ sgs, i ∉ g) : syncGroup sgs i = [i] := by
  unfold syncGroup
  rw [List.find?_eq_none.2 (fun g hg => by simpa using h g hg)]

theorem removeGroup_cons (ap : List Nat) (x : Nat) (rest : List Nat) :
    removeGroup ap (x :: rest) = (removeGroup ap rest).erase x := by
  simp [removeGroup, List.reverse_cons, List.foldl_append]

theorem removeGroup_append_self :
    ∀ (g ap : List Nat), g.Nodup → (∀ x ∈ g, x ∉ ap) →
      removeGroup (ap ++ g) g = ap
  | [], ap, _, _ => by simp [removeGroup]
  | x :: rest, ap, hnd, hdisj => by
    have hdisj2 : ∀ y ∈ rest, y ∉ ap ++ [x] := by
      intro y hy hmem
      rcases List.mem_append.1 hmem with hya | hyx
      · exact hdisj y (List.mem_cons_of_mem _ hy) hya
      · rw [List.mem_singleton.1 hyx] at hy
        exact (List.nodup_cons.1 hnd).1 hy
    have hsplit : ap ++ x :: rest = (ap ++ [x]) ++ rest := by simp
    rw [removeGroup_cons, hsplit,
      removeGroup_append_self rest (ap ++ [x]) hnd.of_cons hdisj2,
      List.erase_append_right _ (hdisj x (List.mem_cons_self ..))]
    simp

theorem removeGroup_self {g : List Nat} (hnd : g.Nodup) :
    removeGroup g g = [] := by
  have := removeGroup_append_self g [] hnd (by simp)
  simpa using this

theorem snapshotOf_spec {V : Type} {m : MState V} {s : Snap V}
    (h : takeSnapshot m m.items [] = .ok s) : snapshotOf m = s := by
  simp [snapshotOf, h, Except.toOption]

/-- The non-propagating part of a ready non-serialising `store`: the
snapshot is pushed and the `stored` signal emitted. -/
theorem storeSelf_ready {V : Type} (w : World V) (i : Nat)
    (hr : ReadyS (w.tracker i)) :
    storeSelf w i false =
      ((w.setTracker i
          (pushState (w.tracker i) (snapshotOf (w.tracker i)))).emit
        (.stored i), none, true) := by
  obtain ⟨h1, h2, h3, h4, h5⟩ := hr
  obtain ⟨s, hs⟩ := takeSnapshot_ok (w.tracker i) h2 (w.tracker i).items [] h5
  rw [snapshotOf_spec hs]
  simp [storeSelf, h1, h2, h3, h4, hs]

theorem storeSelf_defer {V : Type} (w : World V) (i : Nat) (s : Bool)
    (h : (w.tracker i).deferFlag = true) :
    storeSelf w i s = (w, none, false) := by
  simp [storeSelf, h]

theorem store_succ_def {V : Type} (fuel : Nat) (w : World V) (i : Nat)
    (s : Bool) :
    store (fuel + 1) w i s =
      match storeSelf w i s with
      | (w1, some e, _) => (w1, some e)
      | (w1, none, false) => (w1, none)
      | (w1, none, true) =>
        propagate (fun wa p => store fuel wa p s) w1 i := rfl

theorem propagate_active {V : Type}
    (f : World V → Nat → World V × Option PyErr) (w : World V) (i : Nat)
    (h : i ∈ w.active) : propagate f w i = (w, none) := by
  simp [propagate, h]

theorem propagate_external {V : Type}
    (f : World V → Nat → World V × Option PyErr) (w : World V) (i : Nat)
    (g : List Nat) (w3 : World V) (e : Option PyErr)
    (hg : syncGroup w.syncGroups i = g) (hni : i ∉ w.active)
    (hrun : runSeq f (g.filter (fun p => p != i))
      { w with active := w.active ++ g } = (w3, e)) :
    propagate f w i = ({ w3 with active := removeGroup w3.active g }, e) := by
  simp only [propagate, if_neg hni, hg, hrun]

/-- Claim C7 part (a) in lemma form: a deferred tracker's `store` is an
immediate no-op. -/
theorem store_deferred {V : Type} (fuel : Nat) (w : World V) (i : Nat)
    (s : Bool) (h : (w.tracker i).deferFlag = true) :
    store (fuel + 1) w i s = (w, none) := by
  simp [store, storeSelf_defer w i s h]

/-- A ready `store` on a tracker already in the actively-processing list
pushes and emits but does not propagate. -/
theorem store_active {V : Type} (fuel : Nat) (w : World V) (i : Nat)
    (hmem : i ∈ w.active) (hr : ReadyS (w.tracker i)) :
    store (fuel + 1) w i false =
      ((w.setTracker i
          (pushState (w.tracker i) (snapshotOf (w.tracker i)))).emit
        (.stored i), none) := by
  simp only [store, storeSelf_ready w i hr]
  exact propagate_active _ _ _ (by simpa using hmem)

theorem runSeq_store_ready {V : Type} (fuel : Nat) :
    ∀ (ps : List Nat) (w : World V),
      (∀ p ∈ ps, p ∈ w.active ∧ ReadyS (w.tracker p)) →
      runSeq (fun wa p => store (fuel + 1) wa p false) ps w =
        (bulkStore ps w, none)
  | [], _, _ => rfl
  | p :: rest, w, h => by
    obtain ⟨hmem, hr⟩ := h p (List.mem_cons_self ..)
    simp only [runSeq, store_active fuel w p hmem hr, bulkStore]
    refine runSeq_store_ready fuel rest _ (fun q hq => ?_)
    obtain ⟨hqmem, hqr⟩ := h q (List.mem_cons_of_mem _ hq)
    refine ⟨by simpa using hqmem, ?_⟩
    by_cases hpq : q = p
    · subst hpq
      simp only [tracker_emit, tracker_setTracker_self]
      exact ReadyS_pushState _ hqr
    · rw [tracker_emit, tracker_setTracker_ne _ _ hpq]
      exact hqr

theorem bulkStore_active {V : Type} :
    ∀ (ps : List Nat) (w : World V), (bulkStore ps w).active = w.active
  | [], _ => rfl
  | p :: rest, w => by
    simp [bulkStore, bulkStore_active rest]

theorem bulkStore_syncGroups {V : Type} :
    ∀ (ps : List Nat) (w : World V),
      (bulkStore ps w).syncGroups = w.syncGroups
  | [], _ => rfl
  | p :: rest, w => by
    simp [bulkStore, bulkStore_syncGroups rest]

theorem bulkStore_trace {V : Type} :
    ∀ (ps : List Nat) (w : World V),
      (bulkStore ps w).trace = w.trace ++ ps.map (fun p => Event.stored p)
  | [], w => by simp [bulkStore]
  | p :: rest, w => by
    simp [bulkStore, bulkStore_trace rest]

theorem bulkStore_tracker_not_mem {V : Type} :
    ∀ (ps : List Nat) (w : World V) (j : Nat), j ∉ ps →
      (bulkStore ps w).tracker j = w.tracker j
  | [], _, _, _ => rfl
  | p :: rest, w, j, hj => by
    have hjp : j ≠ p := fun hc => hj (by rw [hc]; exact List.mem_cons_self ..)
    have hjr : j ∉ rest := fun hc => hj (List.mem_cons_of_mem _ hc)
    rw [bulkStore, bulkStore_tracker_not_mem rest _ j hjr, tracker_emit,
      tracker_setTracker_ne _ _ hjp]

theorem bulkStore_tracker_mem {V : Type} :
    ∀ (ps : List Nat) (w : World V) (j : Nat), ps.Nodup → j ∈ ps →
      (bulkStore ps w).tracker j =
        pushState (w.tracker j) (snapshotOf (w.tracker j))
  | [], _, _, _, hj => absurd hj (List.not_mem_nil _)
  | p :: rest, w, j, hnd, hj => by
    by_cases hjp : j = p
    · subst hjp
      have hjr : j ∉ rest := (List.nodup_cons.1 hnd).1
      rw [bulkStore, bulkStore_tracker_not_mem rest _ j hjr, tracker_emit,
        tracker_setTracker_self]
    · have hjr : j ∈ rest := by
        rcases List.mem_cons.1 hj with h | h
        · exact absurd h hjp
        · exact h
      rw [bulkStore, bulkStore_tracker_mem rest _ j (List.nodup_cons.1 hnd).2 hjr,
        tracker_emit, tracker_setTracker_ne _ _ hjp]

theorem setActive_setTracker {V : Type} (w : World V) (A : List Nat)
    (p : Nat) (m : MState V) :
    ({ w with active := A } : World V).setTracker p m =
      { w.setTracker p m with active := A } := rfl

theorem bulkStore_setActive {V : Type} :
    ∀ (ps : List Nat) (w : World V) (A : List Nat),
      bulkStore ps { w with active := A } =
        { bulkStore ps w with active := A }
  | [], _, _ => rfl
  | p :: rest, w, A => by
    rw [bulkStore]
    have hstep :
        (({ w with active := A } : World V).setTracker p
            (pushState (({ w with active := A } : World V).tracker p)
              (snapshotOf (({ w with active := A } : World V).tracker p)))).emit
          (.stored p) =
        { (w.setTracker p
            (pushState (w.tracker p) (snapshotOf (w.tracker p)))).emit
          (.stored p) with active := A } := rfl
    rw [hstep, bulkStore_setActive rest _ A]
    rfl

/-- An externally triggered `store` (nothing actively processing from the
group) on a ready group: the tracker pushes and emits, then every other
group member pushes and emits exactly once, and the actively-processing
list is restored. -/
theorem store_external {V : Type} (fuel : Nat) (w : World V) (i : Nat)
    (g : List Nat) (hg : syncGroup w.syncGroups i = g) (hnd : g.Nodup)
    (hdisj : ∀ p ∈ g, p ∉ w.active)
    (hready : ∀ p ∈ g, ReadyS (w.tracker p)) :
    store (fuel + 2) w i false =
      ({ bulkStore (g.filter (fun p => p != i))
          ((w.setTracker i
              (pushState (w.tracker i) (snapshotOf (w.tracker i)))).emit
            (.stored i)) with active := w.active }, none) := by
  have hig : i ∈ g := by
    rw [← hg]
    exact mem_syncGroup w.syncGroups i
  have hri : ReadyS (w.tracker i) := hready i hig
  set w1 : World V :=
    (w.setTracker i (pushState (w.tracker i) (snapshotOf (w.tracker i)))).emit
      (.stored i) with hw1
  have hw1active : w1.active = w.active := by simp [hw1]
  have hw1sync : w1.syncGroups = w.syncGroups := by simp [hw1]
  have hni : i ∉ w1.active := by
    rw [hw1active]
    exact hdisj i hig
  have hg1 : syncGroup w1.syncGroups i = g := by rw [hw1sync, hg]
  have hrun :
      runSeq (fun wa p => store (fuel + 1) wa p false)
        (g.filter (fun p => p != i)) { w1 with active := w1.active ++ g } =
      (bulkStore (g.filter (fun p => p != i))
        { w1 with active := w1.active ++ g }, none) := by
    apply runSeq_store_ready
    intro p hp
    obtain ⟨hpg, hpne⟩ := List.mem_filter.1 hp
    have hpi : p ≠ i := by simpa using hpne
    refine ⟨by simp [List.mem_append, hpg], ?_⟩
    have htr : ({ w1 with active := w1.active ++ g } : World V).tracker p =
        w.tracker p := by
      show w1.tracker p = w.tracker p
      rw [hw1, tracker_emit, tracker_setTracker_ne _ _ hpi]
    rw [htr]
    exact hready p hpg
  have hprop := propagate_external (fun wa p => store (fuel + 1) wa p false)
    w1 i g _ none hg1 hni hrun
  show store (fuel + 1 + 1) w i false = _
  rw [store_succ_def, storeSelf_ready w i hri]
  show propagate (fun wa p => store (fuel + 1) wa p false) w1 i = _
  rw [hprop]
  have hact : removeGroup (bulkStore (g.filter (fun p => p != i))
      { w1 with active := w1.active ++ g }).active g = w.active := by
    rw [bulkStore_active]
    show removeGroup (w1.active ++ g) g = w.active
    rw [hw1active]
    exact removeGroup_append_self g w.active hnd hdisj
  rw [hact, bulkStore_setActive]

/-- An externally triggered `store` on an ungrouped ready tracker: push,
emit, no propagation. -/
theorem store_ungrouped {V : Type} (fuel : Nat) (w : World V) (i : Nat)
    (hu : Ungrouped w i) (hact : i ∉ w.active)
    (hr : ReadyS (w.tracker i)) :
    store (fuel + 2) w i false =
      ({ (w.setTracker i
            (pushState (w.tracker i) (snapshotOf (w.tracker i)))).emit
          (.stored i) with active := w.active }, none) := by
  have hg : syncGroup w.syncGroups i = [i] := syncGroup_ungrouped hu
  have hfil : ([i].filter (fun p => p != i)) = ([] : List Nat) := by simp
  have := store_external fuel w i [i] hg (by simp)
    (by
      intro p hp
      rw [List.mem_singleton.1 hp]
      exact hact)
    (by
      intro p hp
      rw [List.mem_singleton.1 hp]
      exact hr)
  rw [hfil] at this
  exact this

theorem setAll_ok {V : Type} (snap : Snap V) :
    ∀ (items : List (Item V)) (m : MState V), m.alive = true →
      (∀ it ∈ items, itemOKb it = true ∧
        (snapLookup snap it.label).isSome = true) →
      ∃ m1, setAll snap items m = (m1, none) ∧ attrsOnly m1 m
  | [], m, _, _ => ⟨m, rfl, attrsOnly_refl m⟩
  | it :: rest, m, ha, h => by
    obtain ⟨hOK, hsome⟩ := h it (List.mem_cons_self ..)
    obtain ⟨v, hv⟩ := Option.isSome_iff_exists.1 hsome
    have hset : ∃ m2, itemSet m it v = .ok m2 := by
      simp only [itemOKb, Bool.and_eq_true] at hOK
      obtain ⟨-, hOKs⟩ := hOK
      rcases hsetter : it.setter with n | f | f
      · refine ⟨{ m with
          attrs := fun x => if x = it.label then v else m.attrs x }, ?_⟩
        simp only [itemSet, hsetter]
        rw [if_pos ha]
      · rw [hsetter] at hOKs
        simp at hOKs
      · exact ⟨{ m with attrs := f v m.attrs }, by simp [itemSet, hsetter]⟩
    obtain ⟨m2, hm2⟩ := hset
    have honly2 := itemSet_attrsOnly hm2
    have ha2 : m2.alive = true := by
      rw [honly2.2.1]
      exact ha
    obtain ⟨m1, hrun, honly⟩ := setAll_ok snap rest m2 ha2
      (fun x hx => h x (List.mem_cons_of_mem _ hx))
    refine ⟨m1, ?_, attrsOnly_trans honly honly2⟩
    simp only [setAll, hv, hm2, hrun]

theorem get?_eq_some_getD {α : Type} (l : List α) (k : Nat) (d : α)
    (h : k < l.length) : l.get? k = some (l.getD k d) := by
  rw [List.get?_eq_get h]
  congr 1
  simp [List.getD_eq_getElem?_getD, List.getElem?_eq_getElem h]

/-- The in-window body of a ready `restore`: the deferral flag is raised,
the indexed snapshot found and written back; only the tracker's attributes
and flag change, and no signal is emitted yet. -/
theorem restoreSelf_ready {V : Type} (w : World V) (i k : Nat)
    (hr : ReadyR (w.tracker i) k) :
    ∃ m1, restoreSelf w i k = (w.setTracker i m1, none) ∧
      attrsOnly m1 { w.tracker i with deferFlag := true } := by
  obtain ⟨ha, ht, has, hok, hk, hcov⟩ := hr
  have hget : (w.tracker i).states.get? k =
      some ((w.tracker i).states.getD k []) :=
    get?_eq_some_getD _ k [] hk
  have hmT : ({ w.tracker i with deferFlag := true } : MState V).alive =
      true := ha
  obtain ⟨m1, hrun, honly⟩ := setAll_ok ((w.tracker i).states.getD k [])
    (w.tracker i).items { w.tracker i with deferFlag := true } hmT
    (fun it hit => ⟨hok it hit, hcov it hit⟩)
  refine ⟨m1, ?_, honly⟩
  simp only [restoreSelf, World.updTracker, tracker_setTracker_self]
  rw [show ({ w.tracker i with deferFlag := true } : MState V).states.get? k =
      some ((w.tracker i).states.getD k []) from hget]
  simp only [show ({ w.tracker i with deferFlag := true } : MState V).items =
      (w.tracker i).items from rfl, hrun]
  rw [setTracker_setTracker_self]

theorem restore_succ_def {V : Type} (fuel : Nat) (w : World V)
    (i index : Nat) :
    restore (fuel + 1) w i index =
      match restoreSelf w i index with
      | (w1, some e) => (w1, some e)
      | (w1, none) =>
        match propagate (fun wa p => restore fuel wa p index) w1 i with
        | (wp, some e) => (wp, some e)
        | (wp, none) =>
          match deferExitStore fuel wp i false with
          | (w5, some e) => (w5, some e)
          | (w5, none) => (w5.emit (.restored i), none) := rfl

/-- A propagated `restore` on a peer that is already actively processing:
one restore of its own state, whose deferred-window exit performs exactly
one store, with no further propagation; the peer ends with its deferral
flag cleared and emits `stored` then `restored`. -/
theorem restore_peer {V : Type} (fuel : Nat) (w : World V) (p k : Nat)
    (hact : p ∈ w.active) (hr : ReadyR (w.tracker p) k) :
    ∃ m', restore (fuel + 2) w p k =
      (((w.setTracker p m').emit (.stored p)).emit (.restored p), none) ∧
      m'.deferFlag = false ∧ m'.alive = (w.tracker p).alive ∧
      m'.truthy = (w.tracker p).truthy ∧
      m'.alwaysSerialise = (w.tracker p).alwaysSerialise ∧
      m'.items = (w.tracker p).items ∧
      m'.maxStates = (w.tracker p).maxStates := by
  obtain ⟨m1, hrs, honly⟩ := restoreSelf_ready w p k hr
  obtain ⟨hd1, ha1, ht1, hst1, hmx1, hit1, haw1, hhs1⟩ := honly
  have hready2 : ReadyS ({ m1 with deferFlag := false } : MState V) := by
    refine ⟨rfl, ?_, ?_, ?_, ?_⟩
    · show m1.alive = true
      rw [ha1]
      exact hr.1
    · show m1.truthy = true
      rw [ht1]
      exact hr.2.1
    · show m1.alwaysSerialise = false
      rw [haw1]
      exact hr.2.2.1
    · show ∀ it ∈ m1.items, itemOKb it = true
      rw [hit1]
      exact hr.2.2.2.1
  set m2 : MState V := { m1 with deferFlag := false } with hm2
  set m' : MState V := pushState m2 (snapshotOf m2) with hm'
  have hstep : restore (fuel + 1 + 1) w p k =
      ((((w.setTracker p m2).setTracker p
          (pushState ((w.setTracker p m2).tracker p)
            (snapshotOf ((w.setTracker p m2).tracker p)))).emit
        (.stored p)).emit (.restored p), none) := by
    rw [restore_succ_def, hrs]
    show (match propagate (fun wa pp => restore (fuel + 1) wa pp k)
        (w.setTracker p m1) p with
      | (wp, some e) => (wp, some e)
      | (wp, none) =>
        match deferExitStore (fuel + 1) wp p false with
        | (w5, some e) => (w5, some e)
        | (w5, none) => (w5.emit (.restored p), none)) = _
    rw [propagate_active _ _ _ (by simpa using hact)]
    show (match deferExitStore (fuel + 1) (w.setTracker p m1) p false with
      | (w5, some e) => (w5, some e)
      | (w5, none) => (w5.emit (.restored p), none)) = _
    have hdes : deferExitStore (fuel + 1) (w.setTracker p m1) p false =
        (((w.setTracker p m2).setTracker p
            (pushState ((w.setTracker p m2).tracker p)
              (snapshotOf ((w.setTracker p m2).tracker p)))).emit
          (.stored p), none) := by
      show store (fuel + 1)
        ((w.setTracker p m1).updTracker p
          (fun m => { m with deferFlag := false })) p false = _
      have hupd : (w.setTracker p m1).updTracker p
          (fun m => { m with deferFlag := false }) = w.setTracker p m2 := by
        rw [World.updTracker, tracker_setTracker_self,
          setTracker_setTracker_self]
      rw [hupd]
      exact store_active fuel (w.setTracker p m2) p (by simpa using hact)
        (by rwa [tracker_setTracker_self])
    rw [hdes]
  refine ⟨m', ?_, ?_, ?_, ?_, ?_, ?_, ?_⟩
  · rw [hstep, tracker_setTracker_self, setTracker_setTracker_self, ← hm']
  · rw [hm']
    simp
  · rw [hm']
    simp only [alive_pushState]
    show m1.alive = _
    rw [ha1]
  · rw [hm']
    simp only [truthy_pushState]
    show m1.truthy = _
    rw [ht1]
  · rw [hm']
    simp only [alwaysSerialise_pushState]
    show m1.alwaysSerialise = _
    rw [haw1]
  · rw [hm']
    simp only [items_pushState]
    show m1.items = _
    rw [hit1]
  · rw [hm']
    simp only [maxStates_pushState]
    show m1.maxStates = _
    rw [hmx1]

/-- Propagating `restore(index)` over a duplicate-free list of
already-actively-processing ready peers: every peer performs one restore
and one store, emitting `stored` then `restored`; the actively-processing
list, group table and all other trackers are untouched. -/
theorem runSeq_restore {V : Type} (fuel k : Nat) :
    ∀ (ps : List Nat) (w : World V),
      ps.Nodup →
      (∀ p ∈ ps, p ∈ w.active ∧ ReadyR (w.tracker p) k) →
      ∃ w', runSeq (fun wa p => restore (fuel + 2) wa p k) ps w =
          (w', none) ∧
        w'.active = w.active ∧ w'.syncGroups = w.syncGroups ∧
        w'.trace = w.trace ++
          (ps.map (fun p => [Event.stored p, Event.restored p])).flatten ∧
        (∀ j, j ∉ ps → w'.tracker j = w.tracker j) ∧
        (∀ p ∈ ps, ReadyS (w'.tracker p))
  | [], w, _, _ =>
    ⟨w, rfl, rfl, rfl, by simp, fun j _ => rfl, by simp⟩
  | p :: rest, w, hnd, h => by
    obtain ⟨hmem, hr⟩ := h p (List.mem_cons_self ..)
    obtain ⟨m', hres, hd', ha', ht', haw', hit', hmx'⟩ :=
      restore_peer fuel w p k hmem hr
    have hpr : p ∉ rest := (List.nodup_cons.1 hnd).1
    set w1 : World V :=
      ((w.setTracker p m').emit (.stored p)).emit (.restored p) with hw1
    have hw1tr : ∀ j, j ≠ p → w1.tracker j = w.tracker j := by
      intro j hj
      rw [hw1, tracker_emit, tracker_emit, tracker_setTracker_ne _ _ hj]
    have hw1trp : w1.tracker p = m' := by
      rw [hw1, tracker_emit, tracker_emit, tracker_setTracker_self]
    have hreadyS : ReadyS m' := by
      refine ⟨hd', ?_, ?_, ?_, ?_⟩
      · rw [ha']
        exact hr.1
      · rw [ht']
        exact hr.2.1
      · rw [haw']
        exact hr.2.2.1
      · rw [hit']
        exact hr.2.2.2.1
    obtain ⟨w2, hrun2, hact2, hsyn2, htr2, hoth2, hrdy2⟩ :=
      runSeq_restore fuel k rest w1 (List.nodup_cons.1 hnd).2
        (by
          intro q hq
          have hqp : q ≠ p := fun hc => hpr (hc ▸ hq)
          obtain ⟨hqmem, hqr⟩ := h q (List.mem_cons_of_mem _ hq)
          refine ⟨by simpa [hw1] using hqmem, ?_⟩
          rw [hw1tr q hqp]
          exact hqr)
    refine ⟨w2, ?_, ?_, ?_, ?_, ?_, ?_⟩
    · simp only [runSeq, hres]
      exact hrun2
    · rw [hact2]
      simp [hw1]
    · rw [hsyn2]
      simp [hw1]
    · rw [htr2]
      have : w1.trace = w.trace ++ [Event.stored p, Event.restored p] := by
        simp [hw1]
      rw [this]
      simp [List.append_assoc]
    · intro j hj
      have hjp : j ≠ p := fun hc => hj (by rw [hc]; exact List.mem_cons_self ..)
      have hjr : j ∉ rest := fun hc => hj (List.mem_cons_of_mem _ hc)
      rw [hoth2 j hjr, hw1tr j hjp]
    · intro q hq
      rcases List.mem_cons.1 hq with hqp | hqr
      · subst hqp
        rw [hoth2 q hpr, hw1trp]
        exact hreadyS
      · exact hrdy2 q hqr

theorem count_pairs_stored (ps : List Nat) (j : Nat) :
    ((ps.map (fun p => [Event.stored p, Event.restored p])).flatten).count
      (Event.stored j) = ps.count j := by
  induction ps with
  | nil => simp
  | cons p rest ih =>
    simp only [List.map_cons, List.flatten_cons, List.count_append, ih,
      List.count_cons]
    by_cases hpj : p = j <;> simp [hpj, List.count_cons]
    · omega

theorem count_pairs_restored (ps : List Nat) (j : Nat) :
    ((ps.map (fun p => [Event.stored p, Event.restored p])).flatten).count
      (Event.restored j) = ps.count j := by
  induction ps with
  | nil => simp
  | cons p rest ih =>
    simp only [List.map_cons, List.flatten_cons, List.count_append, ih,
      List.count_cons]
    by_cases hpj : p = j <;> simp [hpj, List.count_cons]
    · omega

theorem count_mapStored_stored (ps : List Nat) (j : Nat) :
    (ps.map (fun p => Event.stored p)).count (Event.stored j) = ps.count j := by
  induction ps with
  | nil => simp
  | cons p rest ih =>
    simp only [List.map_cons, List.count_cons, ih]
    by_cases hpj : p = j <;> simp [hpj]

theorem count_mapStored_restored (ps : List Nat) (j : Nat) :
    (ps.map (fun p => Event.stored p)).count (Event.restored j) = 0 := by
  apply List.count_eq_zero_of_not_mem
  simp

/-- An externally triggered `restore(k)` (`active` empty) on a ready sync
group, given the result `m1` of the initiator's own in-window write-back:
every peer restores and stores once inside the window; the window exit
then stores on the initiator and propagates a second store to every peer;
finally `restored` is emitted.  The group table is untouched, the
actively-processing list ends empty, and the initiator's final state is
its written-back state with the flag cleared and one pushed snapshot. -/
theorem restore_external {V : Type} (fuel k : Nat) (w : World V) (i : Nat)
    (g : List Nat) (m1 : MState V)
    (hg : syncGroup w.syncGroups i = g) (hnd : g.Nodup)
    (hact : w.active = [])
    (hrs : restoreSelf w i k = (w.setTracker i m1, none))
    (hm2 : ReadyS ({ m1 with deferFlag := false } : MState V))
    (hpeers : ∀ p ∈ g, p ≠ i → ReadyR (w.tracker p) k) :
    ∃ w', restore (fuel + 3) w i k = (w', none) ∧
      w'.active = [] ∧ w'.syncGroups = w.syncGroups ∧
      w'.trace = w.trace ++
        ((g.filter (fun p => p != i)).map
          (fun p => [Event.stored p, Event.restored p])).flatten ++
        [Event.stored i] ++
        ((g.filter (fun p => p != i)).map (fun p => Event.stored p)) ++
        [Event.restored i] ∧
      w'.tracker i = pushState ({ m1 with deferFlag := false })
        (snapshotOf ({ m1 with deferFlag := false })) ∧
      (∀ j, j ∉ g → w'.tracker j = w.tracker j) := by
  have hig : i ∈ g := by
    rw [← hg]
    exact mem_syncGroup w.syncGroups i
  set w1 : World V := w.setTracker i m1 with hw1
  have hw1act : w1.active = [] := by simp [hw1, hact]
  have hw1syn : w1.syncGroups = w.syncGroups := by simp [hw1]
  set peers : List Nat := g.filter (fun p => p != i) with hpeersdef
  have hpnd : peers.Nodup := hnd.filter _
  have hinp : i ∉ peers := by simp [hpeersdef, List.mem_filter]
  have hmem_peers : ∀ p, p ∈ peers ↔ (p ∈ g ∧ p ≠ i) := by
    intro p
    simp [hpeersdef, List.mem_filter]
  obtain ⟨w3, hrun3, hact3, hsyn3, htr3, hoth3, hrdy3⟩ :=
    runSeq_restore fuel k peers { w1 with active := w1.active ++ g } hpnd
      (by
        intro p hp
        obtain ⟨hpg, hpi⟩ := (hmem_peers p).1 hp
        refine ⟨?_, ?_⟩
        · show p ∈ w1.active ++ g
          rw [hw1act]
          simpa using hpg
        · show ReadyR (w1.tracker p) k
          rw [hw1, tracker_setTracker_ne _ _ hpi]
          exact hpeers p hpg hpi)
  have hni : i ∉ w1.active := by
    rw [hw1act]
    simp
  have hg1 : syncGroup w1.syncGroups i = g := by rw [hw1syn, hg]
  have hprop := propagate_external (fun wa p => restore (fuel + 2) wa p k)
    w1 i g w3 none hg1 hni hrun3
  have hw3act : w3.active = g := by
    rw [hact3]
    show w1.active ++ g = g
    rw [hw1act]
    simp
  have hw4act : removeGroup w3.active g = [] := by
    rw [hw3act]
    exact removeGroup_self hnd
  have hw3syn : w3.syncGroups = w.syncGroups := by
    rw [hsyn3]
    exact hw1syn
  have hw3tri : w3.tracker i = m1 := by
    rw [hoth3 i hinp]
    show w1.tracker i = m1
    rw [hw1, tracker_setTracker_self]
  have hw3oth : ∀ j, j ∉ g → w3.tracker j = w.tracker j := by
    intro j hj
    have hji : j ≠ i := fun hc => hj (hc ▸ hig)
    have hjp : j ∉ peers := fun hc => hj ((hmem_peers j).1 hc).1
    rw [hoth3 j hjp]
    show w1.tracker j = w.tracker j
    rw [hw1, tracker_setTracker_ne _ _ hji]
  have hw3tr : w3.trace = w.trace ++
      (peers.map (fun p => [Event.stored p, Event.restored p])).flatten := by
    rw [htr3]
    show w1.trace ++ _ = _
    have : w1.trace = w.trace := by simp [hw1]
    rw [this]
  -- the deferred-window exit store on the initiator, with the
  -- actively-processing list emptied again
  set w4 : World V := { w3 with active := removeGroup w3.active g } with hw4
  set m2 : MState V := { m1 with deferFlag := false } with hm2def
  set w4u : World V :=
    w4.updTracker i (fun m => { m with deferFlag := false }) with hw4u
  have hw4utr_i : w4u.tracker i = m2 := by
    rw [hw4u, World.updTracker, tracker_setTracker_self]
    show ({ w4.tracker i with deferFlag := false } : MState V) = m2
    rw [hm2def]
    show ({ w3.tracker i with deferFlag := false } : MState V) = _
    rw [hw3tri]
  have hw4uact : w4u.active = [] := by
    rw [hw4u]
    show w4.active = []
    rw [hw4]
    exact hw4act
  have hw4usyn : w4u.syncGroups = w.syncGroups := by
    rw [hw4u]
    show w4.syncGroups = _
    rw [hw4]
    exact hw3syn
  have hw4utr : ∀ p, p ≠ i → w4u.tracker p = w3.tracker p := by
    intro p hpi
    rw [hw4u, World.updTracker, tracker_setTracker_ne _ _ hpi]
    rfl
  have hext := store_external fuel w4u i g
    (by rw [hw4usyn, hg]) hnd
    (by
      intro p hp
      rw [hw4uact]
      simp)
    (by
      intro p hp
      by_cases hpi : p = i
      · rw [hpi, hw4utr_i, hm2def]
        exact hm2
      · rw [hw4utr p hpi]
        exact hrdy3 p ((hmem_peers p).2 ⟨hp, hpi⟩))
  set wS : World V :=
    (w4u.setTracker i
      (pushState (w4u.tracker i) (snapshotOf (w4u.tracker i)))).emit
      (.stored i) with hwS
  set w6 : World V := { bulkStore peers wS with active := w4u.active }
    with hw6
  have hdes : deferExitStore (fuel + 2) w4 i false = (w6, none) := by
    show store (fuel + 2)
      (w4.updTracker i (fun m => { m with deferFlag := false })) i false = _
    rw [← hw4u]
    exact hext
  refine ⟨w6.emit (.restored i), ?_, ?_, ?_, ?_, ?_, ?_⟩
  · show restore (fuel + 2 + 1) w i k = _
    rw [restore_succ_def, hrs]
    show (match propagate (fun wa p => restore (fuel + 2) wa p k) w1 i with
      | (wp, some e) => (wp, some e)
      | (wp, none) =>
        match deferExitStore (fuel + 2) wp i false with
        | (w5, some e) => (w5, some e)
        | (w5, none) => (w5.emit (.restored i), none)) = _
    rw [hprop]
    show (match deferExitStore (fuel + 2) w4 i false with
      | (w5, some e) => (w5, some e)
      | (w5, none) => (w5.emit (.restored i), none)) = _
    rw [hdes]
  · show w6.active = []
    rw [hw6]
    show w4u.active = []
    exact hw4uact
  · show w6.syncGroups = _
    rw [hw6]
    show (bulkStore peers wS).syncGroups = _
    rw [bulkStore_syncGroups]
    rw [hwS]
    show w4u.syncGroups = _
    exact hw4usyn
  · show w6.trace ++ [Event.restored i] = _
    have h6tr : w6.trace = w.trace ++
        (peers.map (fun p => [Event.stored p, Event.restored p])).flatten ++
        [Event.stored i] ++ (peers.map (fun p => Event.stored p)) := by
      rw [hw6]
      show (bulkStore peers wS).trace = _
      rw [bulkStore_trace, hwS]
      show w4u.trace ++ [Event.stored i] ++ _ = _
      have hw4utrc : w4u.trace = w3.trace := by
        rw [hw4u]
        rfl
      rw [hw4utrc, hw3tr]
    rw [h6tr]
  · show w6.tracker i = _
    rw [hw6]
    show (bulkStore peers wS).tracker i = _
    rw [bulkStore_tracker_not_mem peers wS i hinp, hwS, tracker_emit,
      tracker_setTracker_self, hw4utr_i, hm2def]
  · intro j hj
    have hji : j ≠ i := fun hc => hj (hc ▸ hig)
    have hjp : j ∉ peers := fun hc => hj ((hmem_peers j).1 hc).1
    show (bulkStore peers wS).tracker j = _
    rw [bulkStore_tracker_not_mem peers wS j hjp, hwS, tracker_emit,
      tracker_setTracker_ne _ _ hji, hw4utr j hji, hw3oth j hj]

/-- Claim C3 (amended): for an externally triggered `restore(k)` on a
member of a ready lock-step group, each tracker emits at most one
`restored` and at most two `stored` signals (the deferred-window exit of
each peer's propagated restore stores once, and the initiator's own
window exit propagates a second store to every peer); the initiator
itself stores and restores exactly once. -/
theorem claim_C3 {V : Type} (fuel k : Nat) (w : World V) (i : Nat)
    (g : List Nat) (hg : syncGroup w.syncGroups i = g) (hnd : g.Nodup)
    (hact : w.active = []) (htrc : w.trace = [])
    (hready : ∀ p ∈ g, ReadyR (w.tracker p) k) :
    ∃ w', restore (fuel + 3) w i k = (w', none) ∧
      (∀ j, w'.trace.count (Event.restored j) ≤ 1) ∧
      (∀ j, w'.trace.count (Event.stored j) ≤ 2) ∧
      w'.trace.count (Event.stored i) = 1 ∧
      w'.trace.count (Event.restored i) = 1 := by
  have hig : i ∈ g := by
    rw [← hg]
    exact mem_syncGroup w.syncGroups i
  obtain ⟨m1, hrs, honly⟩ := restoreSelf_ready w i k (hready i hig)
  obtain ⟨hd1, ha1, ht1, hst1, hmx1, hit1, haw1, hhs1⟩ := honly
  have hm2 : ReadyS ({ m1 with deferFlag := false } : MState V) := by
    refine ⟨rfl, ?_, ?_, ?_, ?_⟩
    · show m1.alive = true
      rw [ha1]
      exact (hready i hig).1
    · show m1.truthy = true
      rw [ht1]
      exact (hready i hig).2.1
    · show m1.alwaysSerialise = false
      rw [haw1]
      exact (hready i hig).2.2.1
    · show ∀ it ∈ m1.items, itemOKb it = true
      rw [hit1]
      exact (hready i hig).2.2.2.1
  obtain ⟨w', hrun, hact', hsyn', htr', htri', hoth'⟩ :=
    restore_external fuel k w i g m1 hg hnd hact hrs hm2
      (fun p hp _ => hready p hp)
  have hpnd : (g.filter (fun p => p != i)).Nodup := hnd.filter _
  have hinp : i ∉ g.filter (fun p => p != i) := by
    simp [List.mem_filter]
  have hcnt_le : ∀ j, (g.filter (fun p => p != i)).count j ≤ 1 :=
    List.nodup_iff_count_le_one.1 hpnd
  have hcnt_i : (g.filter (fun p => p != i)).count i = 0 :=
    List.count_eq_zero_of_not_mem hinp
  have hcs : ∀ j, w'.trace.count (Event.stored j) =
      (g.filter (fun p => p != i)).count j +
        (if i = j then 1 else 0) +
        (g.filter (fun p => p != i)).count j := by
    intro j
    rw [htr', htrc]
    simp only [List.nil_append, List.count_append, count_pairs_stored,
      count_mapStored_stored]
    by_cases hij : i = j <;> simp [hij, List.count_cons]
  have hcr : ∀ j, w'.trace.count (Event.restored j) =
      (g.filter (fun p => p != i)).count j + (if i = j then 1 else 0) := by
    intro j
    rw [htr', htrc]
    simp only [List.nil_append, List.count_append, count_pairs_restored,
      count_mapStored_restored]
    by_cases hij : i = j <;> simp [hij, List.count_cons]
  refine ⟨w', hrun, ?_, ?_, ?_, ?_⟩
  · intro j
    rw [hcr j]
    by_cases hij : i = j
    · rw [← hij, hcnt_i]
      simp
    · have := hcnt_le j
      rw [if_neg hij]
      omega
  · intro j
    rw [hcs j]
    by_cases hij : i = j
    · rw [← hij, hcnt_i]
      simp
    · have := hcnt_le j
      rw [if_neg hij]
      omega
  · rw [hcs i, hcnt_i]
    simp
  · rw [hcr i, hcnt_i]
    simp

/-- Claim C3 counterexample: in the two-member group `{0, 1}` of
`pairWorld`, a single externally triggered `restore(0)` on tracker 0 makes
tracker 1 perform two stores (one at its own deferred-window exit, one
propagated from the initiator's window exit), refuting "at most one store
per tracker per externally-triggered call". -/
theorem claim_C3_counterexample :
    (restore 5 pairWorld 0 0).1.trace =
      [Event.stored 1, Event.restored 1, Event.stored 0, Event.stored 1,
        Event.restored 0] ∧
    (restore 5 pairWorld 0 0).2 = none ∧
    (restore 5 pairWorld 0 0).1.trace.count (Event.stored 1) = 2 ∧
    ¬ ((restore 5 pairWorld 0 0).1.trace.count (Event.stored 1) ≤ 1) := by
  refine ⟨?_, ?_, ?_, ?_⟩ <;> decide

theorem claim_C3_witness :
    syncGroup pairWorld.syncGroups 0 = [0, 1] ∧
    ([0, 1] : List Nat).Nodup ∧
    pairWorld.active = [] ∧ pairWorld.trace = [] ∧
    (∀ p ∈ ([0, 1] : List Nat), ReadyR (pairWorld.tracker p) 0) ∧
    (∃ w', restore (0 + 3) pairWorld 0 0 = (w', none) ∧
      (∀ j, w'.trace.count (Event.restored j) ≤ 1) ∧
      (∀ j, w'.trace.count (Event.stored j) ≤ 2) ∧
      w'.trace.count (Event.stored 0) = 1 ∧
      w'.trace.count (Event.restored 0) = 1) :=
  ⟨by decide, by decide, rfl, rfl, by decide,
    claim_C3 0 0 pairWorld 0 [0, 1] (by decide) (by decide) rfl rfl
      (by decide)⟩

/-- Claim C4: for trackers `a` and `b` grouped in lock-step (each bound to
its own target), a single externally triggered `a.store()` performs
exactly one store on each member — the re-entrancy guard prevents both
infinite and doubled recursion — and, below the history cap, grows each
history by exactly one entry. -/
theorem claim_C4 {V : Type} (fuel : Nat) (w : World V) (a b : Nat)
    (hg : syncGroup w.syncGroups a = [a, b]) (hab : a ≠ b)
    (hact : w.active = []) (htrc : w.trace = [])
    (hra : ReadyS (w.tracker a)) (hrb : ReadyS (w.tracker b))
    (hcapa : (w.tracker a).maxStates = 0 ∨
      countStates (w.tracker a) < (w.tracker a).maxStates)
    (hcapb : (w.tracker b).maxStates = 0 ∨
      countStates (w.tracker b) < (w.tracker b).maxStates) :
    ∃ w', store (fuel + 2) w a false = (w', none) ∧
      countStates (w'.tracker a) = countStates (w.tracker a) + 1 ∧
      countStates (w'.tracker b) = countStates (w.tracker b) + 1 ∧
      w'.trace = [Event.stored a, Event.stored b] ∧
      w'.trace.count (Event.stored a) = 1 ∧
      w'.trace.count (Event.stored b) = 1 := by
  have hba : b ≠ a := fun hc => hab hc.symm
  have hnd : ([a, b] : List Nat).Nodup := by simp [hab]
  have hfil : (([a, b] : List Nat).filter (fun p => p != a)) = [b] := by
    have hbne : (b != a) = true := by simpa using hba
    simp [List.filter, hbne]
  have hext := store_external fuel w a [a, b] hg hnd
    (by
      intro p hp
      rw [hact]
      simp)
    (by
      intro p hp
      rcases List.mem_cons.1 hp with h | h
      · rw [h]
        exact hra
      · rw [List.mem_singleton.1 h]
        exact hrb)
  rw [hfil] at hext
  set wS : World V :=
    (w.setTracker a
        (pushState (w.tracker a) (snapshotOf (w.tracker a)))).emit
      (.stored a) with hwS
  have hwSa : wS.tracker a = pushState (w.tracker a) (snapshotOf (w.tracker a)) := by
    rw [hwS, tracker_emit, tracker_setTracker_self]
  have hwSb : wS.tracker b = w.tracker b := by
    rw [hwS, tracker_emit, tracker_setTracker_ne _ _ hba]
  refine ⟨_, hext, ?_, ?_, ?_, ?_, ?_⟩
  · show countStates ((bulkStore [b] wS).tracker a) = _
    rw [bulkStore_tracker_not_mem [b] wS a (by simp [hab]), hwSa]
    show (pushState (w.tracker a) (snapshotOf (w.tracker a))).states.length = _
    rw [pushState_length_of_room _ hcapa]
    rfl
  · show countStates ((bulkStore [b] wS).tracker b) = _
    rw [bulkStore_tracker_mem [b] wS b (by simp) (by simp), hwSb]
    show (pushState (w.tracker b) (snapshotOf (w.tracker b))).states.length = _
    rw [pushState_length_of_room _ hcapb]
    rfl
  · show (bulkStore [b] wS).trace = _
    rw [bulkStore_trace, hwS]
    show w.trace ++ [Event.stored a] ++ _ = _
    rw [htrc]
    rfl
  · show (bulkStore [b] wS).trace.count _ = _
    rw [bulkStore_trace, hwS]
    show (w.trace ++ [Event.stored a] ++ _).count _ = _
    rw [htrc]
    simp [List.count_cons, hab]
  · show (bulkStore [b] wS).trace.count _ = _
    rw [bulkStore_trace, hwS]
    show (w.trace ++ [Event.stored a] ++ _).count _ = _
    rw [htrc]
    simp [List.count_cons, hba]

theorem claim_C4_witness :
    syncGroup pairWorld.syncGroups 0 = [0, 1] ∧ (0 : Nat) ≠ 1 ∧
    pairWorld.active = [] ∧ pairWorld.trace = [] ∧
    ReadyS (pairWorld.tracker 0) ∧ ReadyS (pairWorld.tracker 1) ∧
    (∃ w', store (0 + 2) pairWorld 0 false = (w', none) ∧
      countStates (w'.tracker 0) = countStates (pairWorld.tracker 0) + 1 ∧
      countStates (w'.tracker 1) = countStates (pairWorld.tracker 1) + 1 ∧
      w'.trace = [Event.stored 0, Event.stored 1] ∧
      w'.trace.count (Event.stored 0) = 1 ∧
      w'.trace.count (Event.stored 1) = 1) :=
  ⟨by decide, by decide, rfl, rfl, by decide, by decide,
    claim_C4 0 pairWorld 0 1 (by decide) (by decide) rfl rfl (by decide)
      (by decide) (Or.inl rfl) (Or.inl rfl)⟩

theorem itemOKb_attrBinding {V : Type} (l : String) :
    itemOKb (attrBinding l : Item V) = true := rfl

/-- The in-window body of `restore` on plain attribute bindings, with the
written-back values made explicit. -/
theorem restoreSelf_attrBindings {V : Type} (w : World V) (i k : Nat)
    (labels : List String) (snap : Snap V)
    (hitems : (w.tracker i).items = labels.map (fun l => attrBinding l))
    (halive : (w.tracker i).alive = true)
    (hsnap : (w.tracker i).states.get? k = some snap)
    (hcov : ∀ l ∈ labels, (snapLookup snap l).isSome = true) :
    ∃ m1, restoreSelf w i k = (w.setTracker i m1, none) ∧
      attrsOnly m1 { w.tracker i with deferFlag := true } ∧
      (∀ l v, l ∈ labels → snapLookup snap l = some v → m1.attrs l = v) ∧
      (∀ x, x ∉ labels → m1.attrs x = (w.tracker i).attrs x) := by
  have hmT : ({ w.tracker i with deferFlag := true } : MState V).alive =
      true := halive
  obtain ⟨m1, hrun, honly, hvals, hothers⟩ :=
    setAll_attrBindings snap labels
      { w.tracker i with deferFlag := true } hmT hcov
  refine ⟨m1, ?_, honly, hvals, hothers⟩
  simp only [restoreSelf, World.updTracker, tracker_setTracker_self]
  rw [show ({ w.tracker i with deferFlag := true } : MState V).states.get? k =
      some snap from hsnap]
  have hrun2 : setAll snap (w.tracker i).items
      ({ w.tracker i with deferFlag := true } : MState V) = (m1, none) := by
    rw [hitems]
    exact hrun
  simp only [show ({ w.tracker i with deferFlag := true } : MState V).items =
      (w.tracker i).items from rfl, hrun2]
  rw [setTracker_setTracker_self]

theorem ReadyS_of_C1Setup {V : Type} {w : World V} {i : Nat}
    {labels : List String} (h : C1Setup w i labels) :
    ReadyS (w.tracker i) := by
  obtain ⟨-, -, h3, h4, h5, h6, -, h8⟩ := h
  refine ⟨h3, h4, h5, h6, ?_⟩
  intro it hit
  rw [h8] at hit
  obtain ⟨l, -, hl⟩ := List.mem_map.1 hit
  rw [← hl]
  exact itemOKb_attrBinding l

/-- Driving a sequence of stores on an ungrouped unbounded tracker over
plain attribute bindings: the history accumulates exactly the snapshots
of the successive attribute states, most recent first. -/
theorem runStores_C1 {V : Type} (fuel : Nat) (i : Nat)
    (labels : List String) :
    ∀ (ts : List (Attrs V)) (w : World V), C1Setup w i labels →
      C1Setup (runStores (fuel + 2) i ts w) i labels ∧
      ((runStores (fuel + 2) i ts w).tracker i).states =
        (ts.reverse.map (fun t => snapOf labels t)) ++
          (w.tracker i).states ∧
      ((runStores (fuel + 2) i ts w).tracker i).attrs =
        ts.getLastD (w.tracker i).attrs
  | [], w, hsetup => ⟨hsetup, by simp [runStores], by simp [runStores]⟩
  | t :: ts, w, hsetup => by
    obtain ⟨h1, h2, h3, h4, h5, h6, h7, h8⟩ := hsetup
    set wA : World V := w.updTracker i (fun m => { m with attrs := t })
      with hwA
    have hwAtr : wA.tracker i = { w.tracker i with attrs := t } := by
      rw [hwA, World.updTracker, tracker_setTracker_self]
    have hsetupA : C1Setup wA i labels := by
      refine ⟨?_, ?_, ?_, ?_, ?_, ?_, ?_, ?_⟩ <;>
        simp only [hwA, World.updTracker, syncGroups_setTracker,
          active_setTracker, tracker_setTracker_self]
      · exact h1
      · exact h2
      · exact h3
      · exact h4
      · exact h5
      · exact h6
      · exact h7
      · exact h8
    have hreadyA : ReadyS (wA.tracker i) := ReadyS_of_C1Setup hsetupA
    have hstep := store_ungrouped fuel wA i hsetupA.1
      (by
        rw [hsetupA.2.1]
        simp)
      hreadyA
    set wB : World V :=
      { (wA.setTracker i
          (pushState (wA.tracker i) (snapshotOf (wA.tracker i)))).emit
        (.stored i) with active := wA.active } with hwB
    have hwBtr : wB.tracker i =
        pushState (wA.tracker i) (snapshotOf (wA.tracker i)) := by
      rw [hwB]
      show ((wA.setTracker i _).emit _).tracker i = _
      rw [tracker_emit, tracker_setTracker_self]
    have hsnapA : snapshotOf (wA.tracker i) = snapOf labels t := by
      have := snapshotOf_attrBindings (wA.tracker i)
        (by rw [hwAtr]; exact h4)
        labels (by rw [hwAtr]; exact h8)
      rw [this, hwAtr]
    have hpushA : (pushState (wA.tracker i)
        (snapshotOf (wA.tracker i))).states =
        snapOf labels t :: (w.tracker i).states := by
      rw [pushState_length_of_room _ (Or.inl (by rw [hwAtr]; exact h7)),
        hsnapA, hwAtr]
    have hsetupB : C1Setup wB i labels := by
      refine ⟨?_, ?_, ?_, ?_, ?_, ?_, ?_, ?_⟩
      · show Ungrouped wB i
        intro gg hgg
        apply hsetupA.1 gg
        rw [hwB] at hgg
        simpa using hgg
      · show wB.active = []
        rw [hwB]
        show wA.active = []
        exact hsetupA.2.1
      · rw [hwBtr, deferFlag_pushState, hwAtr]
        exact h3
      · rw [hwBtr, alive_pushState, hwAtr]
        exact h4
      · rw [hwBtr, truthy_pushState, hwAtr]
        exact h5
      · rw [hwBtr, alwaysSerialise_pushState, hwAtr]
        exact h6
      · rw [hwBtr, maxStates_pushState, hwAtr]
        exact h7
      · rw [hwBtr, items_pushState, hwAtr]
        exact h8
    obtain ⟨hsetupN, hstN, hatN⟩ := runStores_C1 fuel i labels ts wB hsetupB
    have hrunEq : runStores (fuel + 2) i (t :: ts) w =
        runStores (fuel + 2) i ts wB := by
      show runStores (fuel + 2) i ts
        (store (fuel + 2) (w.updTracker i
          (fun m => { m with attrs := t })) i false).1 = _
      rw [← hwA, hstep]
    refine ⟨?_, ?_, ?_⟩
    · rw [hrunEq]
      exact hsetupN
    · rw [hrunEq, hstN, hwBtr, hpushA]
      rw [List.reverse_cons, List.map_append]
      simp [List.append_assoc]
    · rw [hrunEq, hatN, hwBtr, attrs_pushState, hwAtr]
      show ts.getLastD t = _
      rw [List.getLastD_cons]

/-- Claim C1: after any sequence of `N` stores on a single ungrouped
Tracker with unbounded history over plain attribute bindings,
`restore(k)` for `k < N` writes back to the observed target exactly the
bound attribute values as they were at the `(N-k)`-th store (the snapshot
at position `k` of the most-recent-first history), and touches no other
attribute. -/
theorem claim_C1 {V : Type} (fuel : Nat) (labels : List String)
    (ts : List (Attrs V)) (w : World V) (i k : Nat)
    (hsetup : C1Setup w i labels)
    (hstates0 : (w.tracker i).states = [])
    (hk : k < ts.length) :
    ∃ w', restore (fuel + 3) (runStores (fuel + 2) i ts w) i k =
        (w', none) ∧
      (∀ l ∈ labels, (w'.tracker i).attrs l =
        (ts.reverse.get ⟨k, by simpa using hk⟩) l) ∧
      (∀ x, x ∉ labels → (w'.tracker i).attrs x =
        ((runStores (fuel + 2) i ts w).tracker i).attrs x) := by
  obtain ⟨hsetupN, hstN, hatN⟩ := runStores_C1 fuel i labels ts w hsetup
  set wN : World V := runStores (fuel + 2) i ts w with hwN
  have hkrev : k < ts.reverse.length := by simpa using hk
  set tR : Attrs V := ts.reverse.get ⟨k, hkrev⟩ with htR
  have hstates : (wN.tracker i).states =
      ts.reverse.map (fun t => snapOf labels t) := by
    rw [hstN, hstates0]
    simp
  have hget : (wN.tracker i).states.get? k = some (snapOf labels tR) := by
    rw [hstates, List.get?_map, List.get?_eq_get hkrev]
    rfl
  have hcov : ∀ l ∈ labels,
      (snapLookup (snapOf labels tR) l).isSome = true := by
    intro l hl
    rw [snapLookup_snapOf labels tR hl]
    rfl
  obtain ⟨m1, hrs, honly, hvals, hothers⟩ :=
    restoreSelf_attrBindings wN i k labels (snapOf labels tR)
      hsetupN.2.2.2.2.2.2.2 hsetupN.2.2.2.1 hget hcov
  obtain ⟨hd1, ha1, ht1, hst1, hmx1, hit1, haw1, hhs1⟩ := honly
  have hm2 : ReadyS ({ m1 with deferFlag := false } : MState V) := by
    refine ⟨rfl, ?_, ?_, ?_, ?_⟩
    · show m1.alive = true
      rw [ha1]
      exact hsetupN.2.2.2.1
    · show m1.truthy = true
      rw [ht1]
      exact hsetupN.2.2.2.2.1
    · show m1.alwaysSerialise = false
      rw [haw1]
      exact hsetupN.2.2.2.2.2.1
    · show ∀ it ∈ m1.items, itemOKb it = true
      rw [hit1]
      show ∀ it ∈ (wN.tracker i).items, itemOKb it = true
      rw [hsetupN.2.2.2.2.2.2.2]
      intro it hit
      obtain ⟨l, -, hl⟩ := List.mem_map.1 hit
      rw [← hl]
      exact itemOKb_attrBinding l
  have hgN : syncGroup wN.syncGroups i = [i] :=
    syncGroup_ungrouped hsetupN.1
  obtain ⟨w', hrun, hact', hsyn', htr', htri', hoth'⟩ :=
    restore_external fuel k wN i [i] m1 hgN (by simp) hsetupN.2.1 hrs hm2
      (by
        intro p hp hpi
        rw [List.mem_singleton.1 hp] at hpi
        exact absurd rfl hpi)
  refine ⟨w', hrun, ?_, ?_⟩
  · intro l hl
    rw [htri', attrs_pushState]
    show m1.attrs l = tR l
    exact hvals l (tR l) hl (snapLookup_snapOf labels tR hl)
  · intro x hx
    rw [htri', attrs_pushState]
    show m1.attrs x = (wN.tracker i).attrs x
    exact hothers x hx

theorem claim_C1_witness :
    C1Setup plainWorld 0 ["foo"] ∧
    (plainWorld.tracker 0).states = [] ∧ (0 : Nat) < 2 ∧
    (∃ w', restore (0 + 3)
        (runStores (0 + 2) 0
          [fun _ => (1 : Int), fun _ => (2 : Int)] plainWorld) 0 0 =
        (w', none) ∧
      (∀ l ∈ ["foo"], (w'.tracker 0).attrs l =
        (([fun _ => (1 : Int), fun _ => (2 : Int)] :
          List (Attrs Int)).reverse.get ⟨0, by decide⟩) l) ∧
      (∀ x, x ∉ ["foo"] → (w'.tracker 0).attrs x =
        ((runStores (0 + 2) 0
          [fun _ => (1 : Int), fun _ => (2 : Int)]
            plainWorld).tracker 0).attrs x)) := by
  have hs : C1Setup plainWorld 0 ["foo"] := by
    refine ⟨?_, rfl, rfl, rfl, rfl, rfl, rfl, rfl⟩
    intro g hg
    simp [plainWorld] at hg
  exact ⟨hs, rfl, by decide,
    claim_C1 0 ["foo"] [fun _ => (1 : Int), fun _ => (2 : Int)]
      plainWorld 0 0 hs rfl (by decide)⟩

theorem storeSelf_trackers {V : Type} (w : World V) (i : Nat) (s : Bool) :
    (storeSelf w i s).1 = w ∨
    ∃ snap, (storeSelf w i s).1.trackers =
      fun j => if j = i then pushState (w.tracker i) snap
        else w.trackers j := by
  simp only [storeSelf]
  split
  · exact Or.inl rfl
  · split
    · exact Or.inl rfl
    · split
      · exact Or.inl rfl
      · rename_i snap heq
        split
        · exact Or.inr ⟨snap, rfl⟩
        · exact Or.inr ⟨snap, rfl⟩

theorem setAll_states_max {V : Type} (snap : Snap V) (items : List (Item V))
    (m : MState V) :
    ((setAll snap items m).1).states = m.states ∧
    ((setAll snap items m).1).maxStates = m.maxStates := by
  have h := setAll_attrsOnly snap items m
  exact ⟨h.2.2.2.1, h.2.2.2.2.1⟩

theorem restoreSelf_states {V : Type} (w : World V) (i k : Nat) (j : Nat) :
    (((restoreSelf w i k).1).tracker j).states = (w.tracker j).states ∧
    (((restoreSelf w i k).1).tracker j).maxStates =
      (w.tracker j).maxStates := by
  by_cases hj : j = i
  · subst hj
    simp only [restoreSelf, World.updTracker, tracker_setTracker_self]
    split
    · constructor <;> simp [tracker_setTracker_self]
    · rename_i snap heq
      rcases hsa : setAll snap
          ({ w.tracker j with deferFlag := true } : MState V).items
          ({ w.tracker j with deferFlag := true } : MState V) with ⟨m1, e⟩
      have hsm := setAll_states_max snap
        ({ w.tracker j with deferFlag := true } : MState V).items
        ({ w.tracker j with deferFlag := true } : MState V)
      rw [hsa] at hsm
      match e with
      | some e => simpa using hsm
      | none => simpa using hsm
  · simp only [restoreSelf, World.updTracker]
    split
    · constructor <;> rw [tracker_setTracker_ne _ _ hj]
    · rename_i snap heq
      split
      · constructor <;>
          rw [tracker_setTracker_ne _ _ hj, tracker_setTracker_ne _ _ hj]
      · constructor <;>
          rw [tracker_setTracker_ne _ _ hj, tracker_setTracker_ne _ _ hj]

theorem runSeq_preserve {V : Type} (P : World V → Prop)
    (f : World V → Nat → World V × Option PyErr)
    (hf : ∀ w p, P w → P (f w p).1) :
    ∀ (l : List Nat) (w : World V), P w → P (runSeq f l w).1
  | [], _, h => h
  | p :: rest, w, h => by
    simp only [runSeq]
    rcases hfp : f w p with ⟨w2, e⟩
    have h2 : P w2 := by
      have := hf w p h
      rwa [hfp] at this
    match e with
    | none => exact runSeq_preserve P f hf rest w2 h2
    | some e => exact h2

theorem propagate_cap {V : Type}
    (f : World V → Nat → World V × Option PyErr)
    (hf : ∀ w p, (∀ j, capOK (w.tracker j)) →
      ∀ j, capOK ((f w p).1.tracker j))
    (w : World V) (i : Nat) (h : ∀ j, capOK (w.tracker j)) :
    ∀ j, capOK ((propagate f w i).1.tracker j) := by
  simp only [propagate]
  split
  · exact h
  · rcases hrun : runSeq f
        ((syncGroup w.syncGroups i).filter (fun p => p != i))
        { w with active := w.active ++ syncGroup w.syncGroups i } with ⟨w3, e⟩
    have h3 : ∀ j, capOK (w3.tracker j) := by
      have := runSeq_preserve (fun wa => ∀ j, capOK (wa.tracker j)) f hf
        ((syncGroup w.syncGroups i).filter (fun p => p != i))
        { w with active := w.active ++ syncGroup w.syncGroups i } h
      rwa [hrun] at this
    exact h3

theorem capP_store {V : Type} :
    ∀ (fuel : Nat) (w : World V) (i : Nat) (s : Bool),
      (∀ j, capOK (w.tracker j)) →
      ∀ j, capOK (((store fuel w i s).1).tracker j)
  | 0, _, _, _, h => h
  | fuel + 1, w, i, s, h => by
    rw [store_succ_def]
    rcases hss : storeSelf w i s with ⟨w1, e, c⟩
    have h1 : ∀ j, capOK (w1.tracker j) := by
      rcases storeSelf_trackers w i s with heq | ⟨snap, heq⟩
      · rw [hss] at heq
        rw [show w1 = w from heq]
        exact h
      · intro j
        rw [hss] at heq
        show capOK (w1.trackers j)
        rw [show w1.trackers = _ from heq]
        by_cases hj : j = i
        · subst hj
          simp only [if_pos rfl]
          exact capOK_pushState _ (h j)
        · simp only [if_neg hj]
          exact h j
    match e, c with
    | some e, c => exact h1
    | none, false => exact h1
    | none, true =>
      exact propagate_cap _ (fun wa p hw => capP_store fuel wa p s hw) w1 i h1

theorem capOK_deferFalse {V : Type} (m : MState V) (h : capOK m) :
    capOK ({ m with deferFlag := false } : MState V) := h

theorem capP_restore {V : Type} :
    ∀ (fuel : Nat) (w : World V) (i k : Nat),
      (∀ j, capOK (w.tracker j)) →
      ∀ j, capOK (((restore fuel w i k).1).tracker j)
  | 0, _, _, _, h => h
  | fuel + 1, w, i, k, h => by
    rw [restore_succ_def]
    rcases hrs : restoreSelf w i k with ⟨w1, e⟩
    have h1 : ∀ j, capOK (w1.tracker j) := by
      intro j
      have hsm := restoreSelf_states w i k j
      rw [hrs] at hsm
      unfold capOK
      rw [hsm.1, hsm.2]
      exact h j
    match e with
    | some e => exact h1
    | none =>
      show ∀ j, capOK
        ((match propagate (fun wa p => restore fuel wa p k) w1 i with
          | (wp, some e) => (wp, some e)
          | (wp, none) =>
            match deferExitStore fuel wp i false with
            | (w5, some e) => (w5, some e)
            | (w5, none) =>
              (w5.emit (Event.restored i), none)).1.tracker j)
      rcases hp : propagate (fun wa p => restore fuel wa p k) w1 i
        with ⟨wp, ep⟩
      have hp1 : ∀ j, capOK (wp.tracker j) := by
        have := propagate_cap _
          (fun wa p hw => capP_restore fuel wa p k hw) w1 i h1
        rwa [hp] at this
      match ep with
      | some ep => exact hp1
      | none =>
        show ∀ j, capOK
          ((match deferExitStore fuel wp i false with
            | (w5, some e) => (w5, some e)
            | (w5, none) =>
              (w5.emit (Event.restored i), none)).1.tracker j)
        rcases hd : deferExitStore fuel wp i false with ⟨w5, e5⟩
        have h5 : ∀ j, capOK (w5.tracker j) := by
          have hu : ∀ j, capOK
              ((wp.updTracker i
                (fun m => { m with deferFlag := false })).tracker j) := by
            intro j
            by_cases hj : j = i
            · subst hj
              rw [World.updTracker, tracker_setTracker_self]
              exact capOK_deferFalse _ (hp1 j)
            · rw [World.updTracker, tracker_setTracker_ne _ _ hj]
              exact hp1 j
          have h2 := capP_store fuel
            (wp.updTracker i (fun m => { m with deferFlag := false }))
            i false hu
          have hd2 : store fuel
              (wp.updTracker i (fun m => { m with deferFlag := false }))
              i false = (w5, e5) := hd
          rwa [hd2] at h2
        match e5 with
        | some e5 => exact h5
        | none => exact h5

set_option maxRecDepth 10000 in
/-- Claim C2: the snapshot-history length of every tracker stays within a
nonzero `max_states` cap (a zero cap disables the bound) across `store`
and `restore`; a store that overflows the cap evicts exactly one entry,
the oldest; and in the concrete scenario — `max_states = 5`, one integer
attribute `foo`, 100 stores with `foo` set to `0..99` before each —
`count()` is 5 and indices `0..4` hold `99, 98, 97, 96, 95`. -/
theorem claim_C2 :
    (∀ (V : Type) (fuel : Nat) (w : World V) (i : Nat) (s : Bool),
      (∀ j, capOK (w.tracker j)) →
      ∀ j, capOK (((store fuel w i s).1).tracker j)) ∧
    (∀ (V : Type) (fuel : Nat) (w : World V) (i k : Nat),
      (∀ j, capOK (w.tracker j)) →
      ∀ j, capOK (((restore fuel w i k).1).tracker j)) ∧
    (∀ (V : Type) (m : MState V) (snap : Snap V),
      m.maxStates ≠ 0 → m.states.length = m.maxStates →
      (pushState m snap).states = snap :: m.states.dropLast ∧
      (pushState m snap).states.length = m.maxStates) ∧
    countStates (scenarioWorld.tracker 0) = 5 ∧
    ((List.range 5).map (fun j =>
      snapLookup ((scenarioWorld.tracker 0).states.getD j []) "foo")) =
      [some 99, some 98, some 97, some 96, some 95] :=
  ⟨fun _ fuel w i s h => capP_store fuel w i s h,
   fun _ fuel w i k h => capP_restore fuel w i k h,
   fun _ _ snap h0 hlen => pushState_overflow snap h0 hlen,
   by decide, by decide⟩

theorem claim_C2_witness :
    (∀ j, capOK (plainWorld.tracker j)) ∧
    (∀ j, capOK (((store 2 plainWorld 0 false).1).tracker j)) ∧
    (∀ j, capOK (((restore 3 plainWorld 0 0).1).tracker j)) ∧
    (({ fooTracker [[("foo", 0)]] with maxStates := 1 } :
        MState Int).maxStates ≠ 0 ∧
      ({ fooTracker [[("foo", 0)]] with maxStates := 1 } :
        MState Int).states.length = 1 ∧
      (pushState ({ fooTracker [[("foo", 0)]] with maxStates := 1 })
        [("foo", 5)]).states = [[("foo", 5)]] ∧
      (pushState ({ fooTracker [[("foo", 0)]] with maxStates := 1 })
        [("foo", 5)]).states.length = 1) := by
  have hcap : ∀ j, capOK (plainWorld.tracker j) := fun _ => Or.inl rfl
  have hover := claim_C2.2.2.1 Int
    ({ fooTracker [[("foo", 0)]] with maxStates := 1 }) [("foo", 5)]
    (by decide) (by decide)
  exact ⟨hcap, claim_C2.1 Int 2 plainWorld 0 false hcap,
    claim_C2.2.1 Int 3 plainWorld 0 0 hcap,
    by decide, by decide, hover.1, hover.2⟩

theorem mem_groupCall :
    ∀ (sgs : List (List Nat)) (a b : Nat) (h : List Nat),
      h ∈ groupCall sgs a b →
      h ∈ sgs ∨ (∃ g0 ∈ sgs, h = g0 ++ [b]) ∨ h = [a, b]
  | [], a, b, h, hm => by
    simp only [groupCall, List.mem_singleton] at hm
    exact Or.inr (Or.inr hm)
  | g :: rest, a, b, h, hm => by
    simp only [groupCall] at hm
    split at hm
    · split at hm
      · rcases List.mem_cons.1 hm with h1 | h1
        · exact Or.inl (by rw [h1]; exact List.mem_cons_self ..)
        · exact Or.inl (List.mem_cons_of_mem _ h1)
      · rcases List.mem_cons.1 hm with h1 | h1
        · exact Or.inr (Or.inl ⟨g, List.mem_cons_self .., h1⟩)
        · exact Or.inl (List.mem_cons_of_mem _ h1)
    · rcases List.mem_cons.1 hm with h1 | h1
      · exact Or.inl (by rw [h1]; exact List.mem_cons_self ..)
      · rcases mem_groupCall rest a b h h1 with h2 | ⟨g0, hg0, h2⟩ | h2
        · exact Or.inl (List.mem_cons_of_mem _ h2)
        · exact Or.inr (Or.inl ⟨g0, List.mem_cons_of_mem _ hg0, h2⟩)
        · exact Or.inr (Or.inr h2)

theorem groupCall_disjoint :
    ∀ (sgs : List (List Nat)) (a b : Nat),
      PairwiseDisjoint sgs → SafeGroupArg sgs a b →
      PairwiseDisjoint (groupCall sgs a b)
  | [], a, b, _, _ => by
    show PairwiseDisjoint [[a, b]]
    simp [PairwiseDisjoint]
  | g :: rest, a, b, hdisj, hsafe => by
    obtain ⟨hdg, hdrest⟩ := List.pairwise_cons.1 hdisj
    simp only [groupCall]
    split
    · rename_i hag
      have hfind : (g :: rest).find? (fun g0 => decide (a ∈ g0)) = some g :=
        List.find?_cons_of_pos _ (by simpa using hag)
      split
      · exact hdisj
      · rename_i hbg
        have hbnone : ∀ g2 ∈ rest, b ∉ g2 := by
          rcases hsafe with hb | ⟨g', hg', hbg'⟩
          · intro g2 hg2
            exact hb g2 (List.mem_cons_of_mem _ hg2)
          · rw [hfind] at hg'
            have hgg : g = g' := Option.some_injective _ hg'
            rw [← hgg] at hbg'
            exact absurd hbg' hbg
        apply List.pairwise_cons.2
        refine ⟨?_, hdrest⟩
        intro g2 hg2 x hx
        rcases List.mem_append.1 hx with hxg | hxb
        · exact hdg g2 hg2 x hxg
        · rw [List.mem_singleton.1 hxb]
          exact hbnone g2 hg2
    · rename_i hag
      have hsafe' : SafeGroupArg rest a b := by
        rcases hsafe with hb | ⟨g', hg', hbg'⟩
        · exact Or.inl (fun g2 hg2 => hb g2 (List.mem_cons_of_mem _ hg2))
        · right
          rw [List.find?_cons_of_neg _ (by simpa using hag)] at hg'
          exact ⟨g', hg', hbg'⟩
      have hbg : b ∉ g := by
        rcases hsafe with hb | ⟨g', hg', hbg'⟩
        · exact hb g (List.mem_cons_self ..)
        · rw [List.find?_cons_of_neg _ (by simpa using hag)] at hg'
          have hg'mem : g' ∈ rest := List.mem_of_find?_eq_some hg'
          intro hbgc
          exact hdg g' hg'mem b hbgc hbg'
      apply List.pairwise_cons.2
      refine ⟨?_, groupCall_disjoint rest a b hdrest hsafe'⟩
      intro h2 hh2 x hxg
      rcases mem_groupCall rest a b h2 hh2 with hin | ⟨g0, hg0, heq⟩ | heq
      · exact hdg h2 hin x hxg
      · rw [heq]
        intro hxmem
        rcases List.mem_append.1 hxmem with hx0 | hxb
        · exact hdg g0 hg0 x hxg hx0
        · rw [List.mem_singleton.1 hxb] at hxg
          exact hbg hxg
      · rw [heq]
        intro hxmem
        rcases List.mem_cons.1 hxmem with hxa | hxb
        · rw [hxa] at hxg
          exact hag hxg
        · rw [List.mem_singleton.1 hxb] at hxg
          exact hbg hxg

/-- Claim C5 counterexample: after `group(0,1)`, `group(2,3)`,
`group(0,2)` the table is `[[0,1,2],[2,3]]` — tracker 2 belongs to two
distinct sync-group sets, so the table is not a partition. -/
theorem claim_C5_counterexample :
    groupCall (groupCall (groupCall [] 0 1) 2 3) 0 2 = [[0, 1, 2], [2, 3]] ∧
    (2 : Nat) ∈ ([0, 1, 2] : List Nat) ∧ (2 : Nat) ∈ ([2, 3] : List Nat) ∧
    ([0, 1, 2] : List Nat) ≠ [2, 3] ∧
    ¬ PairwiseDisjoint
      (groupCall (groupCall (groupCall [] 0 1) 2 3) 0 2) := by
  refine ⟨?_, ?_, ?_, ?_, ?_⟩ <;> decide

/-- Claim C5 (amended): one `group(a, b)` call preserves the partition
property of the sync-group table provided `b` is not already a member of
a set other than the first set containing `a`; consequently, after any
sequence of group calls each satisfying this side condition, every
tracker belongs to at most one group set.  (The counterexample shows the
unrestricted claim fails when `b` is already grouped elsewhere.) -/
theorem claim_C5 (sgs : List (List Nat)) (a b : Nat)
    (hdisj : PairwiseDisjoint sgs) (hsafe : SafeGroupArg sgs a b) :
    PairwiseDisjoint (groupCall sgs a b) :=
  groupCall_disjoint sgs a b hdisj hsafe

theorem claim_C5_witness :
    PairwiseDisjoint [[0, 1], [2, 3]] ∧
    SafeGroupArg [[0, 1], [2, 3]] 0 4 ∧
    PairwiseDisjoint (groupCall [[0, 1], [2, 3]] 0 4) :=
  ⟨by decide, Or.inl (by decide),
    claim_C5 [[0, 1], [2, 3]] 0 4 (by decide) (Or.inl (by decide))⟩

/-- Claim C6: registering under a label that already exists among the
tracker's bindings raises `RegistrationError` and leaves the tracker —
in particular its existing binding list — completely unchanged. -/
theorem claim_C6 {V : Type} (m : MState V) (getter : Cap V)
    (setterArg : Option (Cap V)) (labelArg : Option String)
    (cv : Bool) (l : String)
    (hres : resolveLabel getter labelArg = some l)
    (hdup : l ∈ labelsOf m) :
    registerItem m getter setterArg labelArg cv =
      (m, some PyErr.registrationError) := by
  simp only [registerItem, hres]
  rw [if_pos (by simpa [labelsOf] using hdup)]

theorem claim_C6_witness :
    resolveLabel (Cap.attr "foo" : Cap Int) none = some "foo" ∧
    "foo" ∈ labelsOf (fooTracker []) ∧
    registerItem (fooTracker []) (Cap.attr "foo") none none true =
      (fooTracker [], some PyErr.registrationError) :=
  ⟨rfl, by decide,
    claim_C6 (fooTracker []) (Cap.attr "foo") none none true "foo" rfl
      (by decide)⟩

/-- Claim C7: while a tracker is inside a deferred/omit window every
`store()` call returns immediately with the whole world unchanged; and
exiting a `defer()` window whose body performed attribute writes on an
ungrouped live tracker performs exactly one store — one `stored`
emission — pushing exactly one new history entry holding the snapshot of
the final attribute state. -/
theorem claim_C7 {V : Type} :
    (∀ (fuel : Nat) (w : World V) (i : Nat) (s : Bool),
      (w.tracker i).deferFlag = true → store (fuel + 1) w i s = (w, none)) ∧
    (∀ (fuel : Nat) (w : World V) (i : Nat) (newAttrs : Attrs V),
      Ungrouped w i → i ∉ w.active →
      (w.tracker i).alive = true → (w.tracker i).truthy = true →
      (w.tracker i).alwaysSerialise = false →
      (∀ it ∈ (w.tracker i).items, itemOKb it = true) →
      ∃ w', deferWindow (fuel + 2) w i
          (fun wb => wb.updTracker i (fun m => { m with attrs := newAttrs }))
          false = (w', none) ∧
        (w'.tracker i).states =
          (pushState ({ w.tracker i with
              deferFlag := false, attrs := newAttrs })
            (snapshotOf ({ w.tracker i with
              deferFlag := false, attrs := newAttrs }))).states ∧
        (w'.tracker i).states.head? =
          some (snapshotOf ({ w.tracker i with
            deferFlag := false, attrs := newAttrs })) ∧
        (w'.tracker i).attrs = newAttrs ∧
        w'.trace = w.trace ++ [Event.stored i] ∧
        (∀ j, j ≠ i → w'.tracker j = w.tracker j)) := by
  constructor
  · exact fun fuel w i s h => store_deferred fuel w i s h
  · intro fuel w i newAttrs hu hact halive htruthy halways hitems
    set m2 : MState V :=
      { w.tracker i with deferFlag := false, attrs := newAttrs } with hm2
    have hwin : deferWindow (fuel + 2) w i
        (fun wb => wb.updTracker i (fun m => { m with attrs := newAttrs }))
        false = store (fuel + 2) (w.setTracker i m2) i false := by
      show store (fuel + 2)
        ((((w.updTracker i (fun m => { m with deferFlag := true })).updTracker
          i (fun m => { m with attrs := newAttrs })).updTracker i
            (fun m => { m with deferFlag := false }))) i false = _
      congr 1
      simp only [World.updTracker, tracker_setTracker_self,
        setTracker_setTracker_self]
    have hready : ReadyS ((w.setTracker i m2).tracker i) := by
      rw [tracker_setTracker_self]
      exact ⟨rfl, halive, htruthy, halways, hitems⟩
    have hstep := store_ungrouped fuel (w.setTracker i m2) i
      (by
        intro gg hgg
        exact hu gg (by simpa using hgg))
      (by simpa using hact) hready
    rw [tracker_setTracker_self] at hstep
    refine ⟨_, hwin.trans hstep, ?_, ?_, ?_, ?_, ?_⟩
    · show (((w.setTracker i m2).setTracker i
        (pushState m2 (snapshotOf m2))).tracker i).states = _
      rw [setTracker_setTracker_self, tracker_setTracker_self]
    · show (((w.setTracker i m2).setTracker i
        (pushState m2 (snapshotOf m2))).tracker i).states.head? = _
      rw [setTracker_setTracker_self, tracker_setTracker_self]
      exact pushState_head m2 (snapshotOf m2)
    · show (((w.setTracker i m2).setTracker i
        (pushState m2 (snapshotOf m2))).tracker i).attrs = _
      rw [setTracker_setTracker_self, tracker_setTracker_self,
        attrs_pushState]
    · show ((w.setTracker i m2).setTracker i
        (pushState m2 (snapshotOf m2))).trace ++ [Event.stored i] = _
      rw [setTracker_setTracker_self, trace_setTracker]
    · intro j hj
      show (((w.setTracker i m2).setTracker i
        (pushState m2 (snapshotOf m2))).tracker j) = _
      rw [setTracker_setTracker_self, tracker_setTracker_ne _ _ hj]

theorem claim_C7_witness :
    ((plainWorld.updTracker 0
      (fun m => { m with deferFlag := true })).tracker 0).deferFlag = true ∧
    store 1 (plainWorld.updTracker 0 (fun m => { m with deferFlag := true }))
        0 false =
      (plainWorld.updTracker 0 (fun m => { m with deferFlag := true }),
        none) ∧
    Ungrouped plainWorld 0 ∧
    (∃ w', deferWindow (0 + 2) plainWorld 0
        (fun wb => wb.updTracker 0
          (fun m => { m with attrs := fun _ => (7 : Int) }))
        false = (w', none) ∧
      (w'.tracker 0).states =
        (pushState ({ plainWorld.tracker 0 with
            deferFlag := false, attrs := fun _ => (7 : Int) })
          (snapshotOf ({ plainWorld.tracker 0 with
            deferFlag := false, attrs := fun _ => (7 : Int) }))).states ∧
      (w'.tracker 0).states.head? =
        some (snapshotOf ({ plainWorld.tracker 0 with
          deferFlag := false, attrs := fun _ => (7 : Int) })) ∧
      (w'.tracker 0).attrs = (fun _ => (7 : Int)) ∧
      w'.trace = plainWorld.trace ++ [Event.stored 0] ∧
      (∀ j, j ≠ 0 → w'.tracker j = plainWorld.tracker j)) := by
  have hu : Ungrouped plainWorld 0 := by
    intro g hg
    simp [plainWorld] at hg
  exact ⟨rfl, claim_C7.1 0 _ 0 false rfl, hu,
    claim_C7.2 0 plainWorld 0 (fun _ => (7 : Int)) hu (by decide) rfl rfl
      rfl (by decide)⟩

/-- Claim C8 (code bug): `Memento.store` tests `if not self._target()` —
the Python truth value of the dereferenced weak reference — so a target
that is still alive but falsy (for example one whose `__bool__` returns
`False`) spuriously raises `StorageError` ("target object is no longer in
scope") and no snapshot is taken, although the claim (and the source's
own comment) promise `StorageError` only for a destroyed target. -/
theorem claim_C8 :
    (falsyWorld.tracker 0).alive = true ∧
    (falsyWorld.tracker 0).truthy = false ∧
    store 1 falsyWorld 0 false = (falsyWorld, some PyErr.storageError) ∧
    countStates ((store 1 falsyWorld 0 false).1.tracker 0) = 0 :=
  ⟨rfl, rfl, rfl, rfl⟩

/-- Claim C9 (code bug): `_ItemToRecord.set` with a non-callable write
capability executes `setattr(self._target(), self.label, value)` — it
assigns to the attribute named by the binding's label, not to the one
named by the setter.  For the binding with label `"L"`, getter `"g"` and
setter `"s"`, `set(7)` writes `7` into attribute `"L"` and leaves
attribute `"s"` (and `"g"`) untouched, although the claim says the write
capability's attribute receives the value. -/
theorem claim_C9 :
    splitItem.label = "L" ∧ splitItem.setter = Cap.attr "s" ∧
    splitItem.getter = Cap.attr "g" ∧
    (itemSet (fooTracker []) splitItem 7).toOption.map
      (fun m2 => (m2.attrs "L", m2.attrs "s", m2.attrs "g")) =
      some (7, 0, 0) :=
  ⟨rfl, rfl, rfl, by decide⟩

/-- Claim C10: when `restore(index)` raises inside the deferred window —
here because `index` is at least `count()` so the history lookup raises
`IndexError` — the generator-based `defer` context manager never resumes,
so `self._defer` is left `True`: every subsequent `store()` returns
immediately adding nothing, until a later window exit (for example the
`omit` exit) clears the flag. -/
theorem claim_C10 {V : Type} (fuel : Nat) (w : World V) (i k : Nat)
    (hk : (w.tracker i).states.length ≤ k) :
    restore (fuel + 1) w i k =
      (w.updTracker i (fun m => { m with deferFlag := true }),
        some PyErr.indexError) ∧
    (((restore (fuel + 1) w i k).1).tracker i).deferFlag = true ∧
    (∀ fuel2 s, store (fuel2 + 1) ((restore (fuel + 1) w i k).1) i s =
      (((restore (fuel + 1) w i k).1), none)) ∧
    ((omitWindow ((restore (fuel + 1) w i k).1) i
      (fun x => x)).tracker i).deferFlag = false := by
  have hget : ((w.tracker i).states).get? k = none := List.get?_eq_none.2 hk
  have hrs : restoreSelf w i k =
      (w.updTracker i (fun m => { m with deferFlag := true }),
        some PyErr.indexError) := by
    simp only [restoreSelf, World.updTracker, tracker_setTracker_self]
    rw [show ({ w.tracker i with deferFlag := true } : MState V).states.get?
      k = none from hget]
  have heq : restore (fuel + 1) w i k =
      (w.updTracker i (fun m => { m with deferFlag := true }),
        some PyErr.indexError) := by
    rw [restore_succ_def, hrs]
  refine ⟨heq, ?_, ?_, ?_⟩
  · rw [heq]
    show ((w.updTracker i
      (fun m => { m with deferFlag := true })).tracker i).deferFlag = true
    rw [World.updTracker, tracker_setTracker_self]
  · intro fuel2 s
    rw [heq]
    apply store_deferred
    show ((w.updTracker i
      (fun m => { m with deferFlag := true })).tracker i).deferFlag = true
    rw [World.updTracker, tracker_setTracker_self]
  · rw [heq]
    show ((omitWindow (w.updTracker i
      (fun m => { m with deferFlag := true })) i
        (fun x => x)).tracker i).deferFlag = false
    simp only [omitWindow, World.updTracker, tracker_setTracker_self]

theorem claim_C10_witness :
    (plainWorld.tracker 0).states.length ≤ 0 ∧
    (restore 1 plainWorld 0 0 =
      (plainWorld.updTracker 0 (fun m => { m with deferFlag := true }),
        some PyErr.indexError) ∧
    (((restore 1 plainWorld 0 0).1).tracker 0).deferFlag = true ∧
    (∀ fuel2 s, store (fuel2 + 1) ((restore 1 plainWorld 0 0).1) 0 s =
      (((restore 1 plainWorld 0 0).1), none)) ∧
    ((omitWindow ((restore 1 plainWorld 0 0).1) 0
      (fun x => x)).tracker 0).deferFlag = false) :=
  ⟨by decide, claim_C10 0 plainWorld 0 0 (by decide)⟩
